import Mathlib

/-!
Verification development for the process/virtual-memory core of a minimal
teaching kernel (`src/pset4/kernel.c`).  The C code is shallowly embedded:
the `pageinfo[]` array of physical frame records becomes a `List Frame`,
physical memory contents become a `List Nat` of abstract per-frame page
contents, page tables become an explicit `AddrSpace` structure, and every
kernel operation becomes a pure Lean function on this state.  `int8_t`
fields (`owner`, `refcount`) are modelled as `Int` with explicit wrapping
to the signed-byte range at every store.
-/

namespace Kernel61

/-- `PAGESIZE` (derivable from the source: the `0xFFF` alignment mask and the
`pn << 12` conversions). -/
def PAGESIZE : Nat := 4096

/-- `PROC_START_ADDR` (from the memory-layout comment in `kernel.c`). -/
def PROC_START_ADDR : Nat := 0x100000

/-- x86 page-table-entry permission bit: present. -/
def PTE_P : Nat := 1

/-- x86 page-table-entry permission bit: writable. -/
def PTE_W : Nat := 2

/-- x86 page-table-entry permission bit: user-accessible. -/
def PTE_U : Nat := 4

/-- Page-fault error-code bit: fault on a present page. -/
def PFERR_PRESENT : Nat := 1

/-- Page-fault error-code bit: fault on a write. -/
def PFERR_WRITE : Nat := 2

/-- Page-fault error-code bit: fault while in user mode. -/
def PFERR_USER : Nat := 4

/-- `PO_FREE`: the frame is free. -/
def PO_FREE : Int := 0

/-- `PO_RESERVED`: the frame is reserved memory. -/
def PO_RESERVED : Int := -1

/-- `PO_KERNEL`: the frame is used by the kernel. -/
def PO_KERNEL : Int := -2

/-- Wrap an integer into the `int8_t` range `[-128, 127]`, as C does on every
store into the `int8_t` fields of `physical_pageinfo`. -/
def i8 (x : Int) : Int := (x + 128) % 256 - 128

/-- One `physical_pageinfo` record: `owner` and `refcount` are `int8_t`. -/
structure Frame where
  owner : Int
  refcount : Int
deriving DecidableEq, Repr

/-- Default frame record (used only as the `getD` fallback). -/
def defFrame : Frame := ⟨0, 0⟩

/-- The global allocator state: the `pageinfo[]` array (one record per
physical frame, indexed by frame number) plus the contents of physical
memory, one abstract page-content token per frame.  `pageinfo.length` plays
the role of `NPAGES`, so `MEMSIZE_PHYSICAL = pageinfo.length * PAGESIZE`. -/
structure KernelState where
  pageinfo : List Frame
  mem : List Nat
deriving DecidableEq, Repr

/-- `pageinfo_init()`: each frame's owner is chosen by the (external)
reserved-memory and kernel-range tests, here passed as predicates; the
refcount is `(owner != PO_FREE)`, i.e. `1` or `0`. -/
def pageinfo_init (npages : Nat) (reserved kernelRange : Nat → Bool) : List Frame :=
  (List.range npages).map fun pn =>
    let owner : Int :=
      if reserved pn then PO_RESERVED
      else if kernelRange pn then PO_KERNEL
      else PO_FREE
    { owner := owner, refcount := if owner ≠ PO_FREE then 1 else 0 }

/-- `physical_page_alloc(addr, owner)`: fails (returning `-1`, no mutation)
if `addr` is not page-aligned, is out of range, or the target frame's
refcount is nonzero; otherwise sets the frame's refcount to `1` and its
owner to `owner`, returning `0`. -/
def physical_page_alloc (k : KernelState) (addr : Nat) (owner : Int) :
    Int × KernelState :=
  if addr % PAGESIZE ≠ 0 ∨ k.pageinfo.length * PAGESIZE ≤ addr
      ∨ (k.pageinfo.getD (addr / PAGESIZE) defFrame).refcount ≠ 0 then
    (-1, k)
  else
    (0, { k with pageinfo := k.pageinfo.set (addr / PAGESIZE) ⟨i8 owner, 1⟩ })

/-- The scan `for (pn = 0; pn < NPAGES; ++pn) if (!pageinfo[pn].refcount) break;`
shared by `page_alloc_lite` and `sys_page_alloc_func`: index of the first
frame with refcount `0`, or the list length if none. -/
def find_free : List Frame → Nat
  | [] => 0
  | f :: fs => if f.refcount = 0 then 0 else find_free fs + 1

/-- `page_alloc_lite(pid)`: scan for the first free frame, allocate it via
`physical_page_alloc`, and return its physical address (`NULL` = `none` on
failure).  When no frame is free the scan leaves `pn = NPAGES` and the
out-of-range address makes `physical_page_alloc` fail without mutation. -/
def page_alloc_lite (k : KernelState) (pid : Int) : Option Nat × KernelState :=
  let pn := find_free k.pageinfo
  let r := physical_page_alloc k (pn * PAGESIZE) pid
  if 0 ≤ r.1 then (some (pn * PAGESIZE), r.2) else (none, r.2)

/-- The result record of `virtual_memory_lookup`: frame number (`-1` when
unmapped), physical address, and permission bits. -/
structure VAMapping where
  pn : Int
  pa : Nat
  perm : Nat
deriving DecidableEq, Repr

/-- An address space: the two-level page-table structure.  `l1pn`/`l2pn` are
the frame numbers of the level-1 and (single, entry-zero) level-2 table
pages — the level-1 frame's physical address is the C `pageentry_t*`
identity of the table, so aliasing two tables is `l1pn` equality.
`entries` are the populated leaf entries `(virtual page, frame, perm)`;
later entries are shadowed by earlier ones, as `find?` takes the first. -/
structure AddrSpace where
  l1pn : Nat
  l2pn : Nat
  entries : List (Nat × Nat × Nat)
deriving DecidableEq, Repr

/-- Modelled from the spec: the external lookup primitive
`lookup(address_space, virtual_address) -> (frame_id, physical_address,
permissions) | Unmapped` supplied by the memory-mapping module
(`virtual_memory_lookup` in the repository, not under `src/`).  The frame
id is the negative sentinel, with permissions `0`, when no entry for the
page is present (`PTE_P` clear). -/
def virtual_memory_lookup (a : AddrSpace) (va : Nat) : VAMapping :=
  match a.entries.find? (fun e => e.1 = va / PAGESIZE) with
  | some e =>
      if e.2.2 &&& PTE_P ≠ 0 then
        { pn := e.2.1, pa := e.2.1 * PAGESIZE + va % PAGESIZE, perm := e.2.2 }
      else { pn := -1, pa := 0, perm := 0 }
  | none => { pn := -1, pa := 0, perm := 0 }

/-- Modelled from the spec: one page of the external map primitive
`map_range(address_space, virtual_start, physical_start, length,
permissions)` (`virtual_memory_map` in the repository, not under `src/`):
installs the leaf entry for one virtual page, shadowing any earlier entry. -/
def virtual_memory_map_page (a : AddrSpace) (va pa perm : Nat) : AddrSpace :=
  { a with entries := (va / PAGESIZE, pa / PAGESIZE, perm) :: a.entries }

/-- Modelled from the spec: the external map primitive over a whole range,
one page at a time (the C loops `for (; sz > 0; ... sz -= PAGESIZE)`). -/
def virtual_memory_map (a : AddrSpace) (va pa len perm : Nat) : AddrSpace :=
  (List.range ((len + PAGESIZE - 1) / PAGESIZE)).foldl
    (fun acc i => virtual_memory_map_page acc (va + PAGESIZE * i) (pa + PAGESIZE * i) perm) a

/-- `copy_pagetable(pagetable, owner)`: allocates two fresh frames (level-1
then level-2, short-circuiting), copies the source level-1 page verbatim,
redirects entry 0 to the fresh level-2 frame, and copies the source's
first level-2 page into it — structurally, the new space has the two fresh
table frames and the source's leaf entries.  Returns `NULL` (`none`) when
either allocation fails; a frame claimed by a successful first allocation
is not released.  (The raw bytes of table pages are represented by the
`AddrSpace` structure itself, not by `mem` tokens.) -/
def copy_pagetable (src : AddrSpace) (owner : Int) (k : KernelState) :
    Option AddrSpace × KernelState :=
  match page_alloc_lite k owner with
  | (none, k1) => (none, k1)
  | (some pa1, k1) =>
    match page_alloc_lite k1 owner with
    | (none, k2) => (none, k2)
    | (some pa2, k2) =>
      (some { l1pn := pa1 / PAGESIZE, l2pn := pa2 / PAGESIZE, entries := src.entries }, k2)

/-- `sys_page_alloc_func(addr, pagetable, pid)`: the page-alloc syscall
worker — scan for the first free frame, allocate it, and on success map it
at `addr` with `PTE_P|PTE_W|PTE_U`.  Returns `0` on success, `-1` on
failure.  (`pagetable` is `Option` because `processes[pid].p_pagetable`
can be `NULL` after a failed fork; mapping through `none` models the
otherwise-undefined C behaviour as a no-op.) -/
def sys_page_alloc_func (k : KernelState) (addr : Nat) (pt : Option AddrSpace)
    (pid : Int) : Int × Option AddrSpace × KernelState :=
  let pn := find_free k.pageinfo
  let r := physical_page_alloc k (pn * PAGESIZE) pid
  if 0 ≤ r.1 then
    (r.1, pt.map (fun a => virtual_memory_map a addr (pn * PAGESIZE) PAGESIZE (PTE_P ||| PTE_W ||| PTE_U)), r.2)
  else (r.1, pt, r.2)

/-- Process lifecycle states (`P_FREE`, `P_RUNNABLE`, `P_BROKEN`). -/
inductive PState where
  | free
  | runnable
  | broken
deriving DecidableEq, Repr

/-- One process descriptor (`struct proc`): pid, state, page table pointer
(`none` = `NULL`), and the saved return-value register `%eax` — the only
register the verified operations read or write individually. -/
structure Proc where
  pid : Int
  state : PState
  pagetable : Option AddrSpace
  eax : Int
deriving DecidableEq, Repr

/-- Default process descriptor (used only as the `getD` fallback). -/
def defProc : Proc := ⟨0, PState.free, none, 0⟩

/-- `PROC_SIZE` (from `kernel.c`): initial per-process code/data region size. -/
def PROC_SIZE : Nat := 0x040000

/-- `++pageinfo[pn].refcount` (an `int8_t` increment, hence wrapped). -/
def bumpRefcount (k : KernelState) (pn : Nat) : KernelState :=
  let f := k.pageinfo.getD pn defFrame
  { k with pageinfo := k.pageinfo.set pn { f with refcount := i8 (f.refcount + 1) } }

/-- The copy/share loop of the `INT_SYS_FORK` handler, over the user virtual
addresses `[PROC_START_ADDR, MEMSIZE_VIRTUAL)` in page steps (passed as a
list).  For each page of the parent (`pAS`, pid `ppid`): if the mapping is
writable and the frame is owned by the parent, allocate a fresh frame for
the child, copy the page contents (`memcpy(page, (void*) vam.pa,
PAGESIZE)` — when the allocation failed this dereferences `NULL`, recorded
in the `Bool` result), and map it into the child at the same address with
the same permissions; else if the mapping has any permission and the frame
is owned by the parent, map the same frame into the child and increment
its refcount.  Mapping through a `NULL` child table is likewise recorded. -/
def fork_loop (pAS : AddrSpace) (ppid newowner : Int) :
    List Nat → Option AddrSpace → KernelState → Option AddrSpace × KernelState × Bool
  | [], cpt, k => (cpt, k, false)
  | va :: rest, cpt, k =>
    let vam := virtual_memory_lookup pAS va
    if vam.perm &&& PTE_W ≠ 0 ∧ (k.pageinfo.getD vam.pn.toNat defFrame).owner = ppid then
      match page_alloc_lite k newowner with
      | (some pa, k1) =>
        let k2 := { k1 with mem := k1.mem.set (pa / PAGESIZE) (k1.mem.getD (vam.pa / PAGESIZE) 0) }
        let out := fork_loop pAS ppid newowner rest
          (cpt.map (fun a => virtual_memory_map a va pa PAGESIZE vam.perm)) k2
        (out.1, out.2.1, out.2.2 || cpt.isNone)
      | (none, k1) =>
        let out := fork_loop pAS ppid newowner rest cpt k1
        (out.1, out.2.1, true)
    else if vam.perm ≠ 0 ∧ (k.pageinfo.getD vam.pn.toNat defFrame).owner = ppid then
      let k1 := bumpRefcount k vam.pn.toNat
      let out := fork_loop pAS ppid newowner rest
        (cpt.map (fun a => virtual_memory_map a va vam.pa PAGESIZE vam.perm)) k1
      (out.1, out.2.1, out.2.2 || cpt.isNone)
    else fork_loop pAS ppid newowner rest cpt k

/-- The body of the `INT_SYS_FORK` handler once a free slot `newpid` is
found: mark the slot runnable, clone the parent's address space, run the
copy/share loop, copy the parent's register context into the child with
`%eax` forced to `0`, and write `newpid` into the parent's `%eax`.  When
`current->p_pagetable` is `NULL` the C clone would dereference it; this is
recorded in the `Bool` result. -/
def fork_success (uservas : List Nat) (procs : List Proc) (curIdx newpid : Nat)
    (k : KernelState) : List Proc × KernelState × Bool :=
  let cur := procs.getD curIdx defProc
  match cur.pagetable with
  | none =>
    (procs.set newpid { procs.getD newpid defProc with state := PState.runnable, pagetable := none },
     k, true)
  | some pAS =>
    let cp := copy_pagetable pAS (i8 newpid) k
    let lp := fork_loop pAS cur.pid (i8 newpid) uservas cp.1 cp.2
    let child := { procs.getD newpid defProc with
                   state := PState.runnable, pagetable := lp.1, eax := 0 }
    ((procs.set newpid child).set curIdx { cur with eax := (newpid : Int) }, lp.2.1, lp.2.2)

/-- The slot scan of the `INT_SYS_FORK` handler:
`for (newpid = 1; newpid < NPROC; ++newpid)` looking for a `P_FREE` slot;
on the hard-coded last candidate `newpid == 15`, if that slot is also
occupied, `-1` is written into the parent's `%eax`. -/
def fork_scan (uservas : List Nat) (curIdx : Nat) :
    List Nat → List Proc → KernelState → List Proc × KernelState × Bool
  | [], procs, k => (procs, k, false)
  | newpid :: rest, procs, k =>
    if (procs.getD newpid defProc).state = PState.free then
      fork_success uservas procs curIdx newpid k
    else if newpid = 15 then
      fork_scan uservas curIdx rest
        (procs.set curIdx { procs.getD curIdx defProc with eax := -1 }) k
    else
      fork_scan uservas curIdx rest procs k

/-- The `INT_SYS_FORK` case of `interrupt()`: scan slots `1 .. NPROC - 1`
(`NPROC` is the process-table capacity, `procs.length`). -/
def fork_handler (uservas : List Nat) (procs : List Proc) (curIdx : Nat)
    (k : KernelState) : List Proc × KernelState × Bool :=
  fork_scan uservas curIdx (List.range' 1 (procs.length - 1)) procs k

/-- `process_setup(pid, program_number)`: clone the kernel's address space
(falling back, when the clone fails, to aliasing `kernel_pagetable` with a
refcount bump on its table frame), on success un-map
`[PROC_START_ADDR, MEMSIZE_PHYSICAL)` and map the process's own two-page
code/data window writable, mark the process runnable, load the program
image, and allocate and map the initial stack page at `stackVA`
(`MEMSIZE_VIRTUAL - PAGESIZE` in the C).
`program_load` is modelled from the spec below. -/
def process_setup (procs : List Proc) (pid : Nat) (imagePages : List Nat)
    (kernelAS : AddrSpace) (stackVA : Nat) (k : KernelState) : List Proc × KernelState :=
  let p0 := { procs.getD pid defProc with eax := 0 }
  let cp := copy_pagetable kernelAS (i8 pid) k
  let step :=
    match cp with
    | (some a, k1) =>
      let a1 := virtual_memory_map a PROC_START_ADDR PROC_START_ADDR
        (k.pageinfo.length * PAGESIZE - PROC_START_ADDR) 0
      let a2 := virtual_memory_map a1 (PROC_START_ADDR + (pid - 1) * PROC_SIZE)
        (PROC_START_ADDR + (pid - 1) * PROC_SIZE) (2 * PAGESIZE) (PTE_P ||| PTE_W ||| PTE_U)
      (a2, k1)
    | (none, k1) => (kernelAS, bumpRefcount k1 kernelAS.l1pn)
  let k2 := program_load imagePages pid step.2
  let sp := sys_page_alloc_func k2 stackVA (some step.1) pid
  (procs.set pid { p0 with state := PState.runnable, pagetable := sp.2.1 }, sp.2.2)
where
  /-- Modelled from the spec: `program_load` (external collaborator, not
  under `src/`) claims the image's pages through `physical_page_alloc`
  ("Used by the program loader"); the image's page addresses are a
  parameter and only the allocator effect is modelled. -/
  program_load (imagePages : List Nat) (pid : Nat) (k : KernelState) : KernelState :=
    imagePages.foldl (fun acc addr => (physical_page_alloc acc addr pid).2) k

/-- `schedule()`: starting from the current pid, repeatedly step to
`(pid + 1) % NPROC` until a `P_RUNNABLE` descriptor is found and run it.
The C loop spins forever when no process is runnable; one full cycle of
fuel (`procs.length`) visits every slot, so `none` models the spin. -/
def schedule_pick (procs : List Proc) : Nat → Nat → Option Nat
  | _, 0 => none
  | pid, fuel + 1 =>
    let pid2 := (pid + 1) % procs.length
    if (procs.getD pid2 defProc).state = PState.runnable then some pid2
    else schedule_pick procs pid2 fuel

/-- The tail of `interrupt()`: resume the current process if it is still
runnable, otherwise invoke the scheduler. -/
def interrupt_resume (procs : List Proc) (curIdx : Nat) : Option Nat :=
  if (procs.getD curIdx defProc).state = PState.runnable then some curIdx
  else schedule_pick procs curIdx procs.length

/-- The `INT_PAGEFAULT` case of `interrupt()`: a fault without `PFERR_USER`
set (kernel-mode execution) panics (`none`); a user-mode fault marks the
current process `P_BROKEN`. -/
def pagefault_handler (procs : List Proc) (curIdx : Nat) (err : Nat) :
    Option (List Proc) :=
  if err &&& PFERR_USER = 0 then none
  else some (procs.set curIdx { procs.getD curIdx defProc with state := PState.broken })

/-- Pointer comparison `processes[pid].p_pagetable == kernel_pagetable`:
a table aliases the kernel's exactly when its level-1 frame is the
kernel table's level-1 frame (`NULL` aliases nothing). -/
def aliasesKernel (p : Proc) (kernelAS : AddrSpace) : Bool :=
  match p.pagetable with
  | some a => a.l1pn == kernelAS.l1pn
  | none => false

/-- The expected kernel-table refcount computed by `virtual_memory_check`:
`1`, plus one for every process slot whose state is not `P_FREE` and whose
page table is (pointer-)equal to `kernel_pagetable`. -/
def expected_kernel_refcount (procs : List Proc) (kernelAS : AddrSpace) : Int :=
  procs.foldl
    (fun acc p => if p.state ≠ PState.free ∧ aliasesKernel p kernelAS then acc + 1 else acc) 1

/-- The expected kernel-table refcount as the spec sentence words it — "1
plus the number of Runnable processes aliasing it" — written from the
spec's words, to be compared with the code's `expected_kernel_refcount`. -/
def expected_kernel_refcount_specwords (procs : List Proc) (kernelAS : AddrSpace) : Int :=
  1 + (procs.countP (fun p => p.state == PState.runnable && aliasesKernel p kernelAS) : Nat)

/-- The per-table asserts of `virtual_memory_check`: the level-1 table's
frame record has the expected owner and refcount, and every present
level-1 entry (here: the single level-2 table) points to a frame with the
same owner and refcount exactly `1`. -/
def check_table (pageinfo : List Frame) (a : AddrSpace) (owner rc : Int) : Bool :=
  ((pageinfo.getD a.l1pn defFrame).owner == owner)
  && ((pageinfo.getD a.l1pn defFrame).refcount == rc)
  && ((pageinfo.getD a.l2pn defFrame).owner == owner)
  && ((pageinfo.getD a.l2pn defFrame).refcount == 1)

/-- `virtual_memory_check()` as a boolean auditor (`true` = no assert
fires): process 0 must be `P_FREE`; the kernel table is checked against
the expected kernel refcount; every non-free process's table is checked
(against the kernel expectation when it aliases the kernel table, else
owner = pid, refcount 1; a `NULL` table fails the asserts); and every
frame with positive refcount and a process owner must refer to a non-free
process slot. -/
def virtual_memory_check (procs : List Proc) (kernelAS : AddrSpace)
    (pageinfo : List Frame) : Bool :=
  let ekr := expected_kernel_refcount procs kernelAS
  ((procs.getD 0 defProc).state == PState.free)
  && check_table pageinfo kernelAS PO_KERNEL ekr
  && ((List.range procs.length).all fun pid =>
        let p := procs.getD pid defProc
        if p.state == PState.free then true
        else if aliasesKernel p kernelAS then check_table pageinfo kernelAS PO_KERNEL ekr
        else
          match p.pagetable with
          | some a => check_table pageinfo a (Int.ofNat pid) 1
          | none => false)
  && ((List.range pageinfo.length).all fun pn =>
        let f := pageinfo.getD pn defFrame
        if 0 < f.refcount ∧ 0 ≤ f.owner then
          (procs.getD f.owner.toNat defProc).state != PState.free
        else true)

/-- Number of free frames (`refcount == 0`) in the frame table. -/
def freeCount (pi : List Frame) : Nat :=
  pi.countP (fun f => f.refcount == 0)

/-- Frame number of the parent's mapping at `va` (meaningful when the
mapping is present, i.e. `permOf ≠ 0`). -/
def pnOf (a : AddrSpace) (va : Nat) : Nat :=
  (virtual_memory_lookup a va).pn.toNat

/-- Permission bits of the mapping at `va` (`0` when unmapped). -/
def permOf (a : AddrSpace) (va : Nat) : Nat :=
  (virtual_memory_lookup a va).perm

/-- The address space maps the listed pages to pairwise distinct frames
(true of every reachable address space). -/
def lookup_injective (a : AddrSpace) (vas : List Nat) : Prop :=
  ∀ va₁ ∈ vas, ∀ va₂ ∈ vas, va₁ ≠ va₂ →
    permOf a va₁ ≠ 0 → permOf a va₂ ≠ 0 → pnOf a va₁ ≠ pnOf a va₂

/-- The `va` qualifies for fork's private-copy branch: writable mapping
whose frame is owned by the parent. -/
def qualCopy (k : KernelState) (a : AddrSpace) (ppid : Int) (va : Nat) : Prop :=
  permOf a va &&& PTE_W ≠ 0 ∧ (k.pageinfo.getD (pnOf a va) defFrame).owner = ppid

/-- The `va` qualifies for fork's share branch: some permission, not the
copy branch, frame owned by the parent. -/
def qualShare (k : KernelState) (a : AddrSpace) (ppid : Int) (va : Nat) : Prop :=
  ¬ qualCopy k a ppid va ∧ permOf a va ≠ 0
    ∧ (k.pageinfo.getD (pnOf a va) defFrame).owner = ppid

instance (k : KernelState) (a : AddrSpace) (ppid : Int) (va : Nat) :
    Decidable (qualCopy k a ppid va) := by
  unfold qualCopy
  infer_instance

instance (k : KernelState) (a : AddrSpace) (ppid : Int) (va : Nat) :
    Decidable (qualShare k a ppid va) := by
  unfold qualShare
  infer_instance

/-- The concrete 8-slot process table of the spec's scheduler test case:
runnable exactly at pids 2, 5 and 7. -/
def schedDemo : List Proc :=
  [⟨0, PState.free, none, 0⟩, ⟨1, PState.free, none, 0⟩,
   ⟨2, PState.runnable, none, 0⟩, ⟨3, PState.free, none, 0⟩,
   ⟨4, PState.free, none, 0⟩, ⟨5, PState.runnable, none, 0⟩,
   ⟨6, PState.free, none, 0⟩, ⟨7, PState.runnable, none, 0⟩]

/-- A freshly booted kernel address space for the auditor test case
(level-1 table in frame 1, level-2 table in frame 2). -/
def kernelDemoAS : AddrSpace := ⟨1, 2, []⟩

/-- A freshly booted 16-slot process table: every slot `P_FREE`. -/
def freshBootProcs : List Proc :=
  (List.range 16).map (fun i => ⟨i, PState.free, none, 0⟩)

/-- A freshly booted frame table consistent with `kernelDemoAS`: reserved
frame 0, the two kernel table frames, one free frame. -/
def freshBootPageinfo : List Frame := [⟨-1, 1⟩, ⟨-2, 1⟩, ⟨-2, 1⟩, ⟨0, 0⟩]

/-- A parent address space for the fork test cases: table frames 9 and 10,
one present writable user page at `0x100000` (virtual page 256) mapped to
frame 3 with permissions `PTE_P|PTE_W|PTE_U = 7`. -/
def forkDemoAS : AddrSpace := ⟨9, 10, [(256, 3, 7)]⟩

/-- The verbatim clone of `forkDemoAS` that `copy_pagetable` produces when
the two table allocations claim frames 1 and 2: same leaf entries, fresh
table frames. -/
def forkDemoChild : AddrSpace := ⟨1, 2, [(256, 3, 7)]⟩

/-- Frame/memory state for the fork test cases in which the parent (pid 1)
owns frame 3: kernel frame 0, free frames 1 and 2, user frame 3. -/
def forkDemoK1 : KernelState := ⟨[⟨-2, 1⟩, ⟨0, 0⟩, ⟨0, 0⟩, ⟨1, 1⟩], [10, 11, 12, 13]⟩

/-- Frame/memory state in which frame 3 is owned by pid 3, a process other
than the forking parent (pid 1). -/
def forkDemoK3 : KernelState := ⟨[⟨-2, 1⟩, ⟨0, 0⟩, ⟨0, 0⟩, ⟨3, 1⟩], [10, 11, 12, 13]⟩

/-- A three-slot process table for the fork test cases: the parent (pid 1,
runnable, table `forkDemoAS`) at index 1 and a free slot at index 2. -/
def forkDemoProcs : List Proc :=
  [⟨0, PState.free, none, 0⟩, ⟨1, PState.runnable, some forkDemoAS, 0⟩,
   ⟨2, PState.free, none, 0⟩]

/-! ### Basic lemmas -/

theorem i8_lb (x : Int) : -128 ≤ i8 x := by
  unfold i8; omega

theorem i8_ub (x : Int) : i8 x ≤ 127 := by
  unfold i8; omega

theorem i8_eq_self {x : Int} (h1 : -128 ≤ x) (h2 : x ≤ 127) : i8 x = x := by
  unfold i8; omega

theorem i8_natCast_ne_zero {c : Nat} (h1 : 1 ≤ c) (h2 : c ≤ 255) : i8 (c : Int) ≠ 0 := by
  unfold i8; omega

theorem i8_add_left (x y : Int) : i8 (i8 x + y) = i8 (x + y) := by
  unfold i8; omega

theorem getD_set_self {α : Type} (l : List α) (n : Nat) (a d : α) (h : n < l.length) :
    (l.set n a).getD n d = a := by
  simp [List.getD, List.getElem?_set, h]

theorem getD_set_ne {α : Type} (l : List α) (n m : Nat) (a d : α) (h : n ≠ m) :
    (l.set n a).getD m d = l.getD m d := by
  simp [List.getD, List.getElem?_set, h]

theorem getD_mem_of_lt {α : Type} (l : List α) (n : Nat) (d : α) (h : n < l.length) :
    l.getD n d ∈ l := by
  simp only [List.getD_eq_getElem l d h]
  exact List.getElem_mem h

/-! ### `find_free` and the allocator -/

theorem find_free_le_length (l : List Frame) : find_free l ≤ l.length := by
  induction l with
  | nil => simp [find_free]
  | cons f fs ih =>
    by_cases h : f.refcount = 0
    · simp [find_free, h]
    · simp only [find_free, h, if_false, List.length_cons]
      omega

theorem find_free_spec (l : List Frame) (h : find_free l < l.length) :
    (l.getD (find_free l) defFrame).refcount = 0 := by
  induction l with
  | nil => simp at h
  | cons f fs ih =>
    by_cases h0 : f.refcount = 0
    · simp [find_free, h0]
    · simp only [find_free, h0, if_false] at h ⊢
      simp only [List.length_cons] at h
      simpa [List.getD] using ih (by omega)

theorem find_free_min (l : List Frame) (m : Nat) (h : m < find_free l) :
    (l.getD m defFrame).refcount ≠ 0 := by
  induction l generalizing m with
  | nil => simp [find_free] at h
  | cons f fs ih =>
    by_cases h0 : f.refcount = 0
    · simp [find_free, h0] at h
    · simp only [find_free, h0, if_false] at h
      match m with
      | 0 => simpa [List.getD]
      | m + 1 => simpa [List.getD] using ih m (by omega)

theorem find_free_lt_length (l : List Frame) (h : ∃ f ∈ l, f.refcount = 0) :
    find_free l < l.length := by
  by_contra hc
  have hle := find_free_le_length l
  obtain ⟨f, hf, hf0⟩ := h
  obtain ⟨n, hn, rfl⟩ := List.mem_iff_getElem.mp hf
  have := find_free_min l n (by omega)
  simp [List.getD, List.getElem?_eq_getElem hn] at this
  exact this hf0

theorem find_free_ge_length (l : List Frame) (h : ∀ f ∈ l, f.refcount ≠ 0) :
    find_free l = l.length := by
  induction l with
  | nil => simp [find_free]
  | cons f fs ih =>
    have h0 : f.refcount ≠ 0 := h f (by simp)
    simp only [find_free, h0, if_false, List.length_cons]
    rw [ih (fun g hg => h g (by simp [hg]))]

/-- Success form of `physical_page_alloc`. -/
theorem physical_page_alloc_success (k : KernelState) (addr : Nat) (owner : Int)
    (h1 : addr % PAGESIZE = 0) (h2 : addr < k.pageinfo.length * PAGESIZE)
    (h3 : (k.pageinfo.getD (addr / PAGESIZE) defFrame).refcount = 0) :
    physical_page_alloc k addr owner =
      (0, { k with pageinfo := k.pageinfo.set (addr / PAGESIZE) ⟨i8 owner, 1⟩ }) := by
  unfold physical_page_alloc
  rw [if_neg]
  push_neg
  exact ⟨h1, by omega, h3⟩

/-- Failure form of `physical_page_alloc`: no mutation. -/
theorem physical_page_alloc_fail (k : KernelState) (addr : Nat) (owner : Int)
    (h : addr % PAGESIZE ≠ 0 ∨ k.pageinfo.length * PAGESIZE ≤ addr
      ∨ (k.pageinfo.getD (addr / PAGESIZE) defFrame).refcount ≠ 0) :
    physical_page_alloc k addr owner = (-1, k) := by
  unfold physical_page_alloc
  rw [if_pos h]

/-- Success form of `page_alloc_lite`: the first free frame (in increasing
frame-number order) is claimed for `pid` with refcount `1`. -/
theorem page_alloc_lite_success (k : KernelState) (pid : Int)
    (h : find_free k.pageinfo < k.pageinfo.length) :
    page_alloc_lite k pid =
      (some (find_free k.pageinfo * PAGESIZE),
       { k with pageinfo := k.pageinfo.set (find_free k.pageinfo) ⟨i8 pid, 1⟩ }) := by
  have hdiv : find_free k.pageinfo * PAGESIZE / PAGESIZE = find_free k.pageinfo := by
    show find_free k.pageinfo * 4096 / 4096 = find_free k.pageinfo
    omega
  have hs := physical_page_alloc_success k (find_free k.pageinfo * PAGESIZE) pid
    (by show find_free k.pageinfo * 4096 % 4096 = 0; omega)
    (by show find_free k.pageinfo * 4096 < k.pageinfo.length * 4096; omega)
    (by rw [hdiv]; exact find_free_spec _ h)
  rw [hdiv] at hs
  simp only [page_alloc_lite, hs]
  norm_num

/-- Failure form of `page_alloc_lite`: no free frame, no mutation. -/
theorem page_alloc_lite_fail (k : KernelState) (pid : Int)
    (h : ∀ f ∈ k.pageinfo, f.refcount ≠ 0) :
    page_alloc_lite k pid = (none, k) := by
  have hs := physical_page_alloc_fail k (find_free k.pageinfo * PAGESIZE) pid
    (Or.inr (Or.inl (by rw [find_free_ge_length _ h])))
  simp only [page_alloc_lite, hs]
  norm_num

/-! ### The refcount/owner invariant -/

/-- The central frame invariant: `refcount == 0` iff `owner == free`. -/
def pageinfo_inv (pi : List Frame) : Prop :=
  ∀ f ∈ pi, (f.refcount = 0 ↔ f.owner = PO_FREE)

/-- Reachable-state side condition: refcounts are non-negative and leave
headroom below the `int8_t` maximum, so a single increment cannot wrap. -/
def refcountOk (pi : List Frame) : Prop :=
  ∀ f ∈ pi, 0 ≤ f.refcount ∧ f.refcount ≤ 126

theorem pageinfo_inv_set {pi : List Frame} (n : Nat) {f : Frame}
    (h : pageinfo_inv pi) (hf : f.refcount = 0 ↔ f.owner = PO_FREE) :
    pageinfo_inv (pi.set n f) := by
  intro g hg
  rcases List.mem_or_eq_of_mem_set hg with h1 | rfl
  · exact h g h1
  · exact hf

theorem refcountOk_set {pi : List Frame} (n : Nat) {f : Frame}
    (h : refcountOk pi) (hf : 0 ≤ f.refcount ∧ f.refcount ≤ 126) :
    refcountOk (pi.set n f) := by
  intro g hg
  rcases List.mem_or_eq_of_mem_set hg with h1 | rfl
  · exact h g h1
  · exact hf

/-- A freshly allocated frame record satisfies the invariant when its owner
is not the free tag. -/
theorem fresh_frame_inv {owner : Int} (h : i8 owner ≠ 0) :
    (Frame.mk (i8 owner) 1).refcount = 0 ↔ (Frame.mk (i8 owner) 1).owner = PO_FREE := by
  simp only [PO_FREE]
  constructor
  · intro hc; exact absurd hc (by norm_num)
  · intro hc; exact absurd hc h

theorem physical_page_alloc_inv (k : KernelState) (addr : Nat) {owner : Int}
    (hown : i8 owner ≠ 0) (h : pageinfo_inv k.pageinfo) :
    pageinfo_inv (physical_page_alloc k addr owner).2.pageinfo := by
  unfold physical_page_alloc
  split
  · exact h
  · exact pageinfo_inv_set _ h (fresh_frame_inv hown)

theorem physical_page_alloc_refcountOk (k : KernelState) (addr : Nat) (owner : Int)
    (h : refcountOk k.pageinfo) :
    refcountOk (physical_page_alloc k addr owner).2.pageinfo := by
  unfold physical_page_alloc
  split
  · exact h
  · exact refcountOk_set _ h (by norm_num)

/-- The state part of `page_alloc_lite` is the state part of the underlying
`physical_page_alloc` call. -/
theorem page_alloc_lite_snd (k : KernelState) (pid : Int) :
    (page_alloc_lite k pid).2
      = (physical_page_alloc k (find_free k.pageinfo * PAGESIZE) pid).2 := by
  simp only [page_alloc_lite]
  split <;> rfl

theorem page_alloc_lite_inv (k : KernelState) {pid : Int}
    (hown : i8 pid ≠ 0) (h : pageinfo_inv k.pageinfo) :
    pageinfo_inv (page_alloc_lite k pid).2.pageinfo := by
  rw [page_alloc_lite_snd]
  exact physical_page_alloc_inv k _ hown h

theorem page_alloc_lite_refcountOk (k : KernelState) (pid : Int)
    (h : refcountOk k.pageinfo) :
    refcountOk (page_alloc_lite k pid).2.pageinfo := by
  rw [page_alloc_lite_snd]
  exact physical_page_alloc_refcountOk k _ pid h

/-- The state part of `sys_page_alloc_func` is the state part of the
underlying `physical_page_alloc` call. -/
theorem sys_page_alloc_func_snd (k : KernelState) (addr : Nat) (pt : Option AddrSpace)
    (pid : Int) :
    (sys_page_alloc_func k addr pt pid).2.2
      = (physical_page_alloc k (find_free k.pageinfo * PAGESIZE) pid).2 := by
  simp only [sys_page_alloc_func]
  split <;> rfl

theorem copy_pagetable_inv (src : AddrSpace) {owner : Int} (k : KernelState)
    (hown : i8 owner ≠ 0) (h : pageinfo_inv k.pageinfo) :
    pageinfo_inv (copy_pagetable src owner k).2.pageinfo := by
  rcases hpa : page_alloc_lite k owner with ⟨o1, k1⟩
  have h1 : pageinfo_inv k1.pageinfo := by
    have hh := page_alloc_lite_inv k hown h
    rwa [hpa] at hh
  cases o1 with
  | none => simpa [copy_pagetable, hpa] using h1
  | some pa1 =>
    rcases hpa2 : page_alloc_lite k1 owner with ⟨o2, k2⟩
    have h2 : pageinfo_inv k2.pageinfo := by
      have hh := page_alloc_lite_inv k1 hown h1
      rwa [hpa2] at hh
    cases o2 with
    | none => simpa [copy_pagetable, hpa, hpa2] using h2
    | some pa2 => simpa [copy_pagetable, hpa, hpa2] using h2

theorem copy_pagetable_refcountOk (src : AddrSpace) (owner : Int) (k : KernelState)
    (h : refcountOk k.pageinfo) :
    refcountOk (copy_pagetable src owner k).2.pageinfo := by
  rcases hpa : page_alloc_lite k owner with ⟨o1, k1⟩
  have h1 : refcountOk k1.pageinfo := by
    have hh := page_alloc_lite_refcountOk k owner h
    rwa [hpa] at hh
  cases o1 with
  | none => simpa [copy_pagetable, hpa] using h1
  | some pa1 =>
    rcases hpa2 : page_alloc_lite k1 owner with ⟨o2, k2⟩
    have h2 : refcountOk k2.pageinfo := by
      have hh := page_alloc_lite_refcountOk k1 owner h1
      rwa [hpa2] at hh
    cases o2 with
    | none => simpa [copy_pagetable, hpa, hpa2] using h2
    | some pa2 => simpa [copy_pagetable, hpa, hpa2] using h2

/-- `bumpRefcount` under the headroom bound: a plain `+ 1`, preserving the
invariant when the frame is owned. -/
theorem bumpRefcount_eq (k : KernelState) (pn : Nat)
    (h0 : 0 ≤ (k.pageinfo.getD pn defFrame).refcount)
    (h1 : (k.pageinfo.getD pn defFrame).refcount ≤ 126) :
    bumpRefcount k pn
      = ⟨k.pageinfo.set pn ⟨(k.pageinfo.getD pn defFrame).owner,
          (k.pageinfo.getD pn defFrame).refcount + 1⟩, k.mem⟩ := by
  show (⟨k.pageinfo.set pn ⟨(k.pageinfo.getD pn defFrame).owner,
      i8 ((k.pageinfo.getD pn defFrame).refcount + 1)⟩, k.mem⟩ : KernelState) = _
  rw [i8_eq_self (by omega) (by omega)]

theorem bumpRefcount_inv (k : KernelState) (pn : Nat)
    (h : pageinfo_inv k.pageinfo)
    (hown : (k.pageinfo.getD pn defFrame).owner ≠ 0)
    (h0 : 0 ≤ (k.pageinfo.getD pn defFrame).refcount)
    (h1 : (k.pageinfo.getD pn defFrame).refcount ≤ 126) :
    pageinfo_inv (bumpRefcount k pn).pageinfo := by
  rw [bumpRefcount_eq k pn h0 h1]
  refine pageinfo_inv_set _ h ?_
  simp only [PO_FREE]
  constructor
  · intro hc
    -- refcount + 1 = 0 is impossible for a non-negative refcount
    omega
  · intro hc
    exact absurd hc hown

/-- `program_load` (spec-modelled) preserves the invariant. -/
theorem program_load_inv (imagePages : List Nat) {pid : Nat} (k : KernelState)
    (hown : i8 (pid : Int) ≠ 0) (h : pageinfo_inv k.pageinfo) :
    pageinfo_inv (process_setup.program_load imagePages pid k).pageinfo := by
  induction imagePages generalizing k with
  | nil => exact h
  | cons a rest ih =>
    simp only [process_setup.program_load, List.foldl_cons]
    exact ih _ (physical_page_alloc_inv k a hown h)

/-- No-free-frame form of `page_alloc_lite` stated on the scan result. -/
theorem page_alloc_lite_none (k : KernelState) (pid : Int)
    (h : k.pageinfo.length ≤ find_free k.pageinfo) :
    page_alloc_lite k pid = (none, k) := by
  have hs := physical_page_alloc_fail k (find_free k.pageinfo * PAGESIZE) pid
    (Or.inr (Or.inl (Nat.mul_le_mul_right _ h)))
  simp only [page_alloc_lite, hs]
  norm_num

/-- A `some` result from `page_alloc_lite` means the scan found a free frame
and the result is its page-aligned address. -/
theorem page_alloc_lite_isSome {k : KernelState} {pid : Int} {pa : Nat}
    (h : (page_alloc_lite k pid).1 = some pa) :
    find_free k.pageinfo < k.pageinfo.length ∧ pa = find_free k.pageinfo * PAGESIZE := by
  by_cases hlt : find_free k.pageinfo < k.pageinfo.length
  · rw [page_alloc_lite_success k pid hlt] at h
    exact ⟨hlt, by simpa using h.symm⟩
  · rw [page_alloc_lite_none k pid (by omega)] at h
    simp at h

/-! ### Claim theorems -/

/-- **C5.** `allocate` (`page_alloc_lite`) scans frame records in increasing
frame-number order and claims the first frame with `refcount == 0` for the
requested owner with refcount `1`, returning its physical address; with no
free frame it returns the `NULL` sentinel and mutates nothing; a successful
call mutates exactly the claimed frame record; and two successful
allocations in sequence never return the same frame address (the first
frame's refcount stays `1 ≠ 0`, so the second scan skips it). -/
theorem claim_C5_allocator_first_free (k : KernelState) (pid pid2 : Int) :
    ((∃ f ∈ k.pageinfo, f.refcount = 0) →
      (page_alloc_lite k pid).1 = some (find_free k.pageinfo * PAGESIZE)
      ∧ (k.pageinfo.getD (find_free k.pageinfo) defFrame).refcount = 0
      ∧ (∀ m < find_free k.pageinfo, (k.pageinfo.getD m defFrame).refcount ≠ 0)
      ∧ (page_alloc_lite k pid).2.pageinfo.getD (find_free k.pageinfo) defFrame = ⟨i8 pid, 1⟩
      ∧ (∀ m, m ≠ find_free k.pageinfo →
          (page_alloc_lite k pid).2.pageinfo.getD m defFrame = k.pageinfo.getD m defFrame)
      ∧ (page_alloc_lite k pid).2.mem = k.mem)
    ∧ ((∀ f ∈ k.pageinfo, f.refcount ≠ 0) → page_alloc_lite k pid = (none, k))
    ∧ (∀ pa1 pa2, (page_alloc_lite k pid).1 = some pa1 →
        (page_alloc_lite (page_alloc_lite k pid).2 pid2).1 = some pa2 →
        pa1 ≠ pa2) := by
  refine ⟨?_, page_alloc_lite_fail k pid, ?_⟩
  · intro hex
    have hlt := find_free_lt_length _ hex
    rw [page_alloc_lite_success k pid hlt]
    refine ⟨rfl, find_free_spec _ hlt, find_free_min _, ?_, ?_, rfl⟩
    · exact getD_set_self _ _ _ _ hlt
    · intro m hm
      exact getD_set_ne _ _ _ _ _ (fun hc => hm hc.symm)
  · intro pa1 pa2 h1 h2
    obtain ⟨hlt1, rfl⟩ := page_alloc_lite_isSome h1
    obtain ⟨hlt2, rfl⟩ := page_alloc_lite_isSome h2
    rw [page_alloc_lite_success k pid hlt1] at h2 hlt2 ⊢
    intro hc
    have hne : find_free (k.pageinfo.set (find_free k.pageinfo) ⟨i8 pid, 1⟩)
        = find_free k.pageinfo := by
      have := Nat.eq_of_mul_eq_mul_right (by norm_num [PAGESIZE] : 0 < PAGESIZE) hc
      exact this.symm
    have hrc : ((k.pageinfo.set (find_free k.pageinfo) ⟨i8 pid, 1⟩).getD
        (find_free (k.pageinfo.set (find_free k.pageinfo) ⟨i8 pid, 1⟩)) defFrame).refcount = 0 := by
      exact find_free_spec _ (by simpa using hlt2)
    rw [hne, getD_set_self _ _ _ _ hlt1] at hrc
    norm_num at hrc

/-- Witness for C5 at a concrete two-frame state: the allocation claims
frame 1 (address `0x1000`), and on a fully-referenced table it fails
without mutation. -/
theorem claim_C5_witness :
    (page_alloc_lite ⟨[⟨-2, 1⟩, ⟨0, 0⟩], [5, 6]⟩ 3).1 = some 4096
    ∧ page_alloc_lite ⟨[⟨-2, 1⟩, ⟨1, 1⟩], [5, 6]⟩ 3 = (none, ⟨[⟨-2, 1⟩, ⟨1, 1⟩], [5, 6]⟩) := by
  constructor
  · exact ((claim_C5_allocator_first_free ⟨[⟨-2, 1⟩, ⟨0, 0⟩], [5, 6]⟩ 3 0).1
      (by decide)).1
  · exact (claim_C5_allocator_first_free ⟨[⟨-2, 1⟩, ⟨1, 1⟩], [5, 6]⟩ 3 0).2.1
      (by decide)

/-- Whatever `schedule_pick` returns is a runnable slot. -/
theorem schedule_pick_runnable {procs : List Proc} {pid fuel p : Nat}
    (h : schedule_pick procs pid fuel = some p) :
    (procs.getD p defProc).state = PState.runnable := by
  induction fuel generalizing pid with
  | zero => simp [schedule_pick] at h
  | succ fuel ih =>
    simp only [schedule_pick] at h
    split at h
    · cases h
      assumption
    · exact ih h

/-- `schedule_pick` returns the first runnable slot in the wrapping scan
order `(pid + 1) % n, (pid + 2) % n, ...`. -/
theorem schedule_pick_spec {procs : List Proc} {pid fuel p : Nat}
    (h : schedule_pick procs pid fuel = some p) :
    ∃ j < fuel, p = (pid + 1 + j) % procs.length
      ∧ (procs.getD p defProc).state = PState.runnable
      ∧ ∀ i < j, (procs.getD ((pid + 1 + i) % procs.length) defProc).state
          ≠ PState.runnable := by
  induction fuel generalizing pid with
  | zero => simp [schedule_pick] at h
  | succ fuel ih =>
    simp only [schedule_pick] at h
    split at h
    next hr =>
      cases h
      refine ⟨0, by omega, by simp, hr, ?_⟩
      intro i hi
      exact absurd hi (Nat.not_lt_zero i)
    next hr =>
      obtain ⟨j, hj, hp, hrun, hmin⟩ := ih h
      have hidx : ∀ m : Nat, ((pid + 1) % procs.length + 1 + m) % procs.length
          = (pid + 1 + (m + 1)) % procs.length := by
        intro m
        conv_lhs => rw [Nat.add_assoc, Nat.mod_add_mod]
        congr 1
        omega
      refine ⟨j + 1, by omega, by rw [hp, hidx j], hrun, ?_⟩
      intro i hi
      match i with
      | 0 => simpa using hr
      | i + 1 =>
        have hm := hmin i (by omega)
        rwa [hidx i] at hm

/-- **C6.** The scheduler selects the first `P_RUNNABLE` descriptor in the
wrapping scan order starting at `(current_pid + 1) % table_size`; with
runnable slots exactly `{2, 5, 7}` in a table of size 8, from current 5 it
selects 7, and from current 7 it wraps around to 2. -/
theorem claim_C6_scheduler (procs : List Proc) (pid fuel p : Nat) :
    (schedule_pick procs pid fuel = some p →
      ∃ j < fuel, p = (pid + 1 + j) % procs.length
        ∧ (procs.getD p defProc).state = PState.runnable
        ∧ ∀ i < j, (procs.getD ((pid + 1 + i) % procs.length) defProc).state
            ≠ PState.runnable)
    ∧ schedule_pick schedDemo 5 8 = some 7
    ∧ schedule_pick schedDemo 7 8 = some 2 :=
  ⟨schedule_pick_spec, by decide, by decide⟩

/-- Witness for C6: the scan-order characterization instantiated on the
concrete 8-slot table, picking from current pid 5. -/
theorem claim_C6_witness :
    ∃ j < 8, 7 = (5 + 1 + j) % schedDemo.length
      ∧ (schedDemo.getD 7 defProc).state = PState.runnable
      ∧ ∀ i < j, (schedDemo.getD ((5 + 1 + i) % schedDemo.length) defProc).state
          ≠ PState.runnable :=
  (claim_C6_scheduler schedDemo 5 8 7).1 (by decide)

/-- When the current slot is not runnable, the dispatcher tail invokes the
scheduler. -/
theorem interrupt_resume_of_ne (procs : List Proc) (curIdx : Nat)
    (h : (procs.getD curIdx defProc).state ≠ PState.runnable) :
    interrupt_resume procs curIdx = schedule_pick procs curIdx procs.length := by
  rw [interrupt_resume, if_neg h]

/-- When the current slot is not runnable, the dispatcher tail never hands
control back to it. -/
theorem interrupt_resume_target {procs : List Proc} {curIdx p : Nat}
    (h : (procs.getD curIdx defProc).state ≠ PState.runnable)
    (hp : interrupt_resume procs curIdx = some p) : p ≠ curIdx := by
  rw [interrupt_resume_of_ne _ _ h] at hp
  have hr := schedule_pick_runnable hp
  intro hc
  rw [hc] at hr
  exact h hr

/-- **C7.** On a page fault: kernel-mode execution (no `PFERR_USER` bit)
panics; user-mode execution marks the faulting (runnable) current process
`P_BROKEN`, leaves every other descriptor unchanged, and the dispatcher
tail then invokes the scheduler, which can only hand control to a process
other than the faulting one. -/
theorem claim_C7_pagefault (procs : List Proc) (curIdx err : Nat)
    (hcur : curIdx < procs.length)
    (hrun : (procs.getD curIdx defProc).state = PState.runnable) :
    (err &&& PFERR_USER = 0 → pagefault_handler procs curIdx err = none)
    ∧ (err &&& PFERR_USER ≠ 0 →
        ∃ procs', pagefault_handler procs curIdx err = some procs'
          ∧ (procs'.getD curIdx defProc).state = PState.broken
          ∧ (∀ j, j ≠ curIdx → procs'.getD j defProc = procs.getD j defProc)
          ∧ interrupt_resume procs' curIdx
              = schedule_pick procs' curIdx procs'.length
          ∧ (∀ p, interrupt_resume procs' curIdx = some p → p ≠ curIdx)) := by
  have _hr := hrun
  constructor
  · intro h0
    simp [pagefault_handler, h0]
  · intro h0
    have hph : pagefault_handler procs curIdx err
        = some (procs.set curIdx { procs.getD curIdx defProc with state := PState.broken }) := by
      simp [pagefault_handler, h0]
    have hb : ((procs.set curIdx
        { procs.getD curIdx defProc with state := PState.broken }).getD curIdx defProc).state
        = PState.broken := by
      rw [getD_set_self _ _ _ _ hcur]
    have hnr : ((procs.set curIdx
        { procs.getD curIdx defProc with state := PState.broken }).getD curIdx defProc).state
        ≠ PState.runnable := by
      rw [hb]
      intro hc
      cases hc
    refine ⟨_, hph, hb, ?_, ?_, ?_⟩
    · intro j hj
      exact getD_set_ne _ _ _ _ _ (fun hc => hj hc.symm)
    · exact interrupt_resume_of_ne _ _ hnr
    · intro p hp
      exact interrupt_resume_target hnr hp

/-- Witness for C7 at a concrete two-process table: a kernel-mode write
fault (`err = 2`) panics, while a user-mode fault (`err = 6`) breaks
process 1 only. -/
theorem claim_C7_witness :
    pagefault_handler [⟨0, PState.free, none, 0⟩, ⟨1, PState.runnable, none, 0⟩] 1 2 = none
    ∧ ∃ procs',
        pagefault_handler [⟨0, PState.free, none, 0⟩, ⟨1, PState.runnable, none, 0⟩] 1 6
          = some procs'
        ∧ (procs'.getD 1 defProc).state = PState.broken
        ∧ (∀ j, j ≠ 1 → procs'.getD j defProc
            = ([⟨0, PState.free, none, 0⟩, ⟨1, PState.runnable, none, 0⟩] :
                List Proc).getD j defProc)
        ∧ interrupt_resume procs' 1 = schedule_pick procs' 1 procs'.length
        ∧ (∀ p, interrupt_resume procs' 1 = some p → p ≠ 1) :=
  ⟨(claim_C7_pagefault [⟨0, PState.free, none, 0⟩, ⟨1, PState.runnable, none, 0⟩] 1 2
      (by decide) (by decide)).1 (by decide),
   (claim_C7_pagefault [⟨0, PState.free, none, 0⟩, ⟨1, PState.runnable, none, 0⟩] 1 6
      (by decide) (by decide)).2 (by decide)⟩

/-- Writing the parent's `%eax` does not change any slot's state. -/
theorem getD_set_eax_state (procs : List Proc) (curIdx : Nat) (v : Int) (j : Nat) :
    ((procs.set curIdx { procs.getD curIdx defProc with eax := v }).getD j defProc).state
      = (procs.getD j defProc).state := by
  by_cases hj : curIdx = j
  · subst hj
    by_cases hlt : curIdx < procs.length
    · rw [getD_set_self _ _ _ _ hlt]
    · rw [List.set_eq_of_length_le (by omega)]
  · rw [getD_set_ne _ _ _ _ _ hj]

/-- Two successive writes of the parent's `%eax` collapse to the last one. -/
theorem set_eax_collapse (procs : List Proc) (curIdx : Nat) (v w : Int) :
    (procs.set curIdx { procs.getD curIdx defProc with eax := v }).set curIdx
      { (procs.set curIdx { procs.getD curIdx defProc with eax := v }).getD curIdx defProc
        with eax := w }
    = procs.set curIdx { procs.getD curIdx defProc with eax := w } := by
  rw [List.set_set]
  congr 1
  by_cases hlt : curIdx < procs.length
  · rw [getD_set_self _ _ _ _ hlt]
  · rw [List.set_eq_of_length_le (by omega)]

/-- The fork slot scan over candidates that are all occupied: the only
effect is the `-1` error write into the parent's `%eax`, and that only if
the hard-coded bound `15` is among the candidates. -/
theorem fork_scan_all_occupied (uservas : List Nat) (curIdx : Nat) (cands : List Nat)
    (procs : List Proc) (k : KernelState)
    (h : ∀ j ∈ cands, (procs.getD j defProc).state ≠ PState.free) :
    fork_scan uservas curIdx cands procs k =
      if 15 ∈ cands then
        (procs.set curIdx { procs.getD curIdx defProc with eax := -1 }, k, false)
      else (procs, k, false) := by
  induction cands generalizing procs with
  | nil => simp [fork_scan]
  | cons c rest ih =>
    have hc : (procs.getD c defProc).state ≠ PState.free := h c (by simp)
    by_cases h15 : c = 15
    · subst h15
      rw [fork_scan, if_neg hc, if_pos rfl]
      rw [ih _ (fun j hj => by rw [getD_set_eax_state]; exact h j (by simp [hj]))]
      by_cases hr : (15 : Nat) ∈ rest
      · rw [if_pos hr, if_pos (by simp)]
        rw [set_eax_collapse]
      · rw [if_neg hr, if_pos (by simp)]
    · rw [fork_scan, if_neg hc, if_neg h15]
      rw [ih _ (fun j hj => h j (by simp [hj]))]
      by_cases hr : (15 : Nat) ∈ rest
      · rw [if_pos hr, if_pos (by simp [hr])]
      · rw [if_neg hr, if_neg (by simp [hr, Ne.symm h15])]

/-- The fork slot scan finds the first free candidate (provided the
hard-coded error slot `15` is not among the occupied candidates before it)
and runs the success path on it. -/
theorem fork_scan_first_free (uservas : List Nat) (curIdx : Nat) (pre : List Nat)
    (newpid : Nat) (post : List Nat) (procs : List Proc) (k : KernelState)
    (hpre : ∀ j ∈ pre, (procs.getD j defProc).state ≠ PState.free ∧ j ≠ 15)
    (hfree : (procs.getD newpid defProc).state = PState.free) :
    fork_scan uservas curIdx (pre ++ newpid :: post) procs k
      = fork_success uservas procs curIdx newpid k := by
  induction pre with
  | nil =>
    rw [List.nil_append, fork_scan, if_pos hfree]
  | cons c rest ih =>
    obtain ⟨hc, h15⟩ := hpre c (by simp)
    rw [List.cons_append, fork_scan, if_neg hc, if_neg h15]
    exact ih (fun j hj => hpre j (by simp [hj]))

/-- **C3.** With the process table at its true capacity `NPROC = 16` (so
that the hard-coded failure bound `15` coincides with `NPROC - 1`), the
fork handler reports resource exhaustion — `-1` in the parent's saved
`%eax` — exactly when no slot among pids `1 .. 15` is `P_FREE`; on that
failure the frame table is untouched and the process table is unchanged
except for that return-value write (in particular every slot's state is
unchanged); when a free slot exists, the parent's `%eax` receives the
first free pid, which is non-negative. -/
theorem claim_C3_fork_exhaustion (procs : List Proc) (curIdx : Nat)
    (uservas : List Nat) (k : KernelState)
    (hlen : procs.length = 16) :
    ((∀ j, 1 ≤ j → j ≤ 15 → (procs.getD j defProc).state ≠ PState.free) →
      fork_handler uservas procs curIdx k
        = (procs.set curIdx { procs.getD curIdx defProc with eax := -1 }, k, false)
      ∧ (∀ j, ((fork_handler uservas procs curIdx k).1.getD j defProc).state
          = (procs.getD j defProc).state)
      ∧ (fork_handler uservas procs curIdx k).2.1 = k)
    ∧ (∀ newpid, 1 ≤ newpid → newpid ≤ 15 →
        (procs.getD newpid defProc).state = PState.free →
        (∀ j, 1 ≤ j → j < newpid → (procs.getD j defProc).state ≠ PState.free) →
        fork_handler uservas procs curIdx k
          = fork_success uservas procs curIdx newpid k) := by
  have hcands : List.range' 1 (procs.length - 1) = List.range' 1 15 := by rw [hlen]
  constructor
  · intro hocc
    have hall : fork_handler uservas procs curIdx k
        = (procs.set curIdx { procs.getD curIdx defProc with eax := -1 }, k, false) := by
      rw [fork_handler, hcands,
        fork_scan_all_occupied uservas curIdx _ procs k
          (fun j hj => by
            rw [List.mem_range'_1] at hj
            exact hocc j hj.1 (by omega)),
        if_pos (by rw [List.mem_range'_1]; omega)]
    refine ⟨hall, ?_, by rw [hall]⟩
    intro j
    rw [hall]
    exact getD_set_eax_state procs curIdx (-1) j
  · intro newpid h1 h15 hfree hmin
    have hsplit : List.range' 1 15
        = List.range' 1 (newpid - 1) ++ newpid :: List.range' (newpid + 1) (15 - newpid) := by
      have e1 : List.range' 1 (newpid - 1) ++ List.range' (1 + (newpid - 1)) (16 - newpid)
          = List.range' 1 (16 - newpid + (newpid - 1)) := List.range'_append_1 1 (newpid - 1) _
      have e2 : 1 + (newpid - 1) = newpid := by omega
      have e3 : 16 - newpid + (newpid - 1) = 15 := by omega
      have e4 : 16 - newpid = (15 - newpid) + 1 := by omega
      rw [e2, e3] at e1
      rw [← e1, e4, List.range'_succ]
    rw [fork_handler, hcands, hsplit]
    exact fork_scan_first_free uservas curIdx _ newpid _ procs k
      (fun j hj => by
        rw [List.mem_range'_1] at hj
        exact ⟨hmin j hj.1 (by omega), by omega⟩)
      hfree

/-- Witness for C3 on a full 16-slot table (failure: `%eax` gets `-1`,
nothing else changes) and on a table with slot 2 free (success path taken
at the first free pid). -/
theorem claim_C3_witness :
    (fork_handler [] (List.map (fun i => ⟨i, PState.runnable, none, 0⟩) (List.range 16)) 1
        ⟨[⟨-2, 1⟩], [0]⟩).2.1 = ⟨[⟨-2, 1⟩], [0]⟩
    ∧ fork_handler [] (⟨0, PState.free, none, 0⟩ :: ⟨1, PState.runnable, none, 0⟩ ::
          List.map (fun i => ⟨i + 2, PState.free, none, 0⟩) (List.range 14)) 1
        ⟨[⟨-2, 1⟩], [0]⟩
      = fork_success [] (⟨0, PState.free, none, 0⟩ :: ⟨1, PState.runnable, none, 0⟩ ::
          List.map (fun i => ⟨i + 2, PState.free, none, 0⟩) (List.range 14)) 1 2
        ⟨[⟨-2, 1⟩], [0]⟩ := by
  constructor
  · exact ((claim_C3_fork_exhaustion _ 1 [] ⟨[⟨-2, 1⟩], [0]⟩ (by decide)).1
      (by decide)).2.2
  · exact (claim_C3_fork_exhaustion _ 1 [] ⟨[⟨-2, 1⟩], [0]⟩ (by decide)).2 2
      (by decide) (by decide) (by decide) (by decide)

/-- The checker's counting loop, as a fold, equals `initial + count`. -/
theorem expected_kernel_refcount_fold (kernelAS : AddrSpace) (l : List Proc) (init : Int) :
    l.foldl
      (fun acc p => if p.state ≠ PState.free ∧ aliasesKernel p kernelAS then acc + 1 else acc)
      init
    = init + (l.countP (fun p => !(p.state == PState.free) && aliasesKernel p kernelAS) : Nat) := by
  induction l generalizing init with
  | nil => simp
  | cons p rest ih =>
    rw [List.foldl_cons, ih]
    by_cases hp : p.state ≠ PState.free ∧ aliasesKernel p kernelAS
    · rw [if_pos hp, List.countP_cons_of_pos _ _ (by simp [hp.1, hp.2])]
      push_cast
      ring
    · rw [if_neg hp, List.countP_cons_of_neg _ _ (by simpa [Decidable.not_and_iff_or_not] using hp)]

/-- **C8 (amended).** The invariant checker computes the expected refcount
of the kernel's level-1 page-table frame as 1 plus the number of **non-Free
(Runnable or Broken)** processes whose page table aliases the kernel
table — not the Runnable processes only, as the claim says — and a passing
check forces the kernel table's frame record to hold exactly that
refcount; on a freshly booted table with only the kernel active, the
expected value is exactly 1 and no violation is raised. -/
theorem claim_C8_checker (procs : List Proc) (kernelAS : AddrSpace)
    (pageinfo : List Frame) :
    (expected_kernel_refcount procs kernelAS
      = 1 + (procs.countP
          (fun p => !(p.state == PState.free) && aliasesKernel p kernelAS) : Nat))
    ∧ (virtual_memory_check procs kernelAS pageinfo = true →
        (pageinfo.getD kernelAS.l1pn defFrame).refcount
          = expected_kernel_refcount procs kernelAS)
    ∧ expected_kernel_refcount freshBootProcs kernelDemoAS = 1
    ∧ virtual_memory_check freshBootProcs kernelDemoAS freshBootPageinfo = true := by
  refine ⟨expected_kernel_refcount_fold kernelAS procs 1, ?_, by decide, by decide⟩
  intro h
  simp only [virtual_memory_check, check_table, Bool.and_eq_true, beq_iff_eq] at h
  exact h.1.1.2.1.1.2

/-- Counterexample to C8 as stated: with one Broken process aliasing the
kernel table, the code computes expected refcount 2, while the claim's
"1 plus the number of Runnable aliasing processes" gives 1. -/
theorem claim_C8_counterexample :
    expected_kernel_refcount
        [⟨0, PState.free, none, 0⟩, ⟨1, PState.broken, some ⟨1, 2, []⟩, 0⟩] ⟨1, 2, []⟩ = 2
    ∧ expected_kernel_refcount_specwords
        [⟨0, PState.free, none, 0⟩, ⟨1, PState.broken, some ⟨1, 2, []⟩, 0⟩] ⟨1, 2, []⟩ = 1
    ∧ expected_kernel_refcount
        [⟨0, PState.free, none, 0⟩, ⟨1, PState.broken, some ⟨1, 2, []⟩, 0⟩] ⟨1, 2, []⟩
      ≠ expected_kernel_refcount_specwords
        [⟨0, PState.free, none, 0⟩, ⟨1, PState.broken, some ⟨1, 2, []⟩, 0⟩] ⟨1, 2, []⟩ := by
  decide

/-- Witness for C8: the refcount assert, instantiated on the fresh-boot
state, where the passing check forces the kernel table frame's refcount to
equal the computed expectation. -/
theorem claim_C8_witness :
    (freshBootPageinfo.getD kernelDemoAS.l1pn defFrame).refcount
      = expected_kernel_refcount freshBootProcs kernelDemoAS :=
  (claim_C8_checker freshBootProcs kernelDemoAS freshBootPageinfo).2.1 (by decide)

/-- `physical_page_alloc` cannot touch a frame that is referenced. -/
theorem physical_page_alloc_preserves_nonfree (k : KernelState) (addr : Nat)
    (owner : Int) (pn : Nat) (h : (k.pageinfo.getD pn defFrame).refcount ≠ 0) :
    (physical_page_alloc k addr owner).2.pageinfo.getD pn defFrame
      = k.pageinfo.getD pn defFrame := by
  unfold physical_page_alloc
  split
  · rfl
  next hc =>
    push_neg at hc
    refine getD_set_ne _ _ _ _ _ (fun he => ?_)
    rw [he] at hc
    exact h hc.2.2

theorem physical_page_alloc_length (k : KernelState) (addr : Nat) (owner : Int) :
    (physical_page_alloc k addr owner).2.pageinfo.length = k.pageinfo.length := by
  unfold physical_page_alloc
  split
  · rfl
  · simp

theorem page_alloc_lite_preserves_nonfree (k : KernelState) (pid : Int) (pn : Nat)
    (h : (k.pageinfo.getD pn defFrame).refcount ≠ 0) :
    (page_alloc_lite k pid).2.pageinfo.getD pn defFrame = k.pageinfo.getD pn defFrame := by
  rw [page_alloc_lite_snd]
  exact physical_page_alloc_preserves_nonfree k _ pid pn h

theorem page_alloc_lite_length (k : KernelState) (pid : Int) :
    (page_alloc_lite k pid).2.pageinfo.length = k.pageinfo.length := by
  rw [page_alloc_lite_snd]
  exact physical_page_alloc_length k _ pid

theorem copy_pagetable_preserves_nonfree (src : AddrSpace) (owner : Int)
    (k : KernelState) (pn : Nat)
    (h : (k.pageinfo.getD pn defFrame).refcount ≠ 0) :
    (copy_pagetable src owner k).2.pageinfo.getD pn defFrame
      = k.pageinfo.getD pn defFrame := by
  rcases hpa : page_alloc_lite k owner with ⟨o1, k1⟩
  have h1 : k1.pageinfo.getD pn defFrame = k.pageinfo.getD pn defFrame := by
    have hh := page_alloc_lite_preserves_nonfree k owner pn h
    rwa [hpa] at hh
  cases o1 with
  | none => simpa [copy_pagetable, hpa] using h1
  | some pa1 =>
    rcases hpa2 : page_alloc_lite k1 owner with ⟨o2, k2⟩
    have h2 : k2.pageinfo.getD pn defFrame = k1.pageinfo.getD pn defFrame := by
      have hh := page_alloc_lite_preserves_nonfree k1 owner pn (by rw [h1]; exact h)
      rwa [hpa2] at hh
    cases o2 with
    | none => simp only [copy_pagetable, hpa, hpa2]; rw [h2, h1]
    | some pa2 => simp only [copy_pagetable, hpa, hpa2]; rw [h2, h1]

theorem copy_pagetable_length (src : AddrSpace) (owner : Int) (k : KernelState) :
    (copy_pagetable src owner k).2.pageinfo.length = k.pageinfo.length := by
  rcases hpa : page_alloc_lite k owner with ⟨o1, k1⟩
  have h1 : k1.pageinfo.length = k.pageinfo.length := by
    have hh := page_alloc_lite_length k owner
    rwa [hpa] at hh
  cases o1 with
  | none => simpa [copy_pagetable, hpa] using h1
  | some pa1 =>
    rcases hpa2 : page_alloc_lite k1 owner with ⟨o2, k2⟩
    have h2 : k2.pageinfo.length = k1.pageinfo.length := by
      have hh := page_alloc_lite_length k1 owner
      rwa [hpa2] at hh
    cases o2 with
    | none => simp only [copy_pagetable, hpa, hpa2]; rw [h2, h1]
    | some pa2 => simp only [copy_pagetable, hpa, hpa2]; rw [h2, h1]

theorem program_load_preserves_nonfree (imgs : List Nat) (pid : Nat)
    (k : KernelState) (pn : Nat)
    (h : (k.pageinfo.getD pn defFrame).refcount ≠ 0) :
    (process_setup.program_load imgs pid k).pageinfo.getD pn defFrame
      = k.pageinfo.getD pn defFrame := by
  induction imgs generalizing k with
  | nil => rfl
  | cons a rest ih =>
    simp only [process_setup.program_load, List.foldl_cons]
    have hstep := physical_page_alloc_preserves_nonfree k a pid pn h
    rw [show (List.foldl (fun acc addr => (physical_page_alloc acc addr ↑pid).2)
          (physical_page_alloc k a ↑pid).2 rest)
        = process_setup.program_load rest pid (physical_page_alloc k a ↑pid).2 from rfl]
    rw [ih _ (by rw [hstep]; exact h), hstep]

/-- `virtual_memory_map` only touches leaf entries, never the identity of
the level-1 table frame. -/
theorem virtual_memory_map_l1pn (a : AddrSpace) (va pa len perm : Nat) :
    (virtual_memory_map a va pa len perm).l1pn = a.l1pn := by
  unfold virtual_memory_map
  generalize List.range ((len + PAGESIZE - 1) / PAGESIZE) = idxs
  induction idxs generalizing a va pa with
  | nil => rfl
  | cons i rest ih => simpa [virtual_memory_map_page] using ih _ _ _

/-- **C4 (amended).** Failure behaviour of `copy_pagetable`: when no frame
is free the clone fails with the allocator state unchanged; when exactly
the first allocation succeeds, the clone fails and that one frame remains
claimed (the state is *not* restored); and the "return the source's address
space aliased with a table-frame refcount increment" fallback is performed
by the caller `process_setup`, not inside the clone. -/
theorem claim_C4_clone_failure (src : AddrSpace) (owner : Int) (k : KernelState)
    (procs : List Proc) (pid : Nat) (imgs : List Nat) (kernelAS : AddrSpace)
    (stackVA : Nat) :
    ((∀ f ∈ k.pageinfo, f.refcount ≠ 0) → copy_pagetable src owner k = (none, k))
    ∧ (find_free k.pageinfo < k.pageinfo.length →
        (∀ f ∈ k.pageinfo.set (find_free k.pageinfo) ⟨i8 owner, 1⟩, f.refcount ≠ 0) →
        copy_pagetable src owner k
          = (none, { k with
              pageinfo := k.pageinfo.set (find_free k.pageinfo) ⟨i8 owner, 1⟩ }))
    ∧ ((copy_pagetable kernelAS (i8 (pid : Int)) k).1 = none →
        pid < procs.length →
        kernelAS.l1pn < k.pageinfo.length →
        0 ≤ (k.pageinfo.getD kernelAS.l1pn defFrame).refcount →
        (k.pageinfo.getD kernelAS.l1pn defFrame).refcount ≤ 126 →
        (k.pageinfo.getD kernelAS.l1pn defFrame).refcount ≠ 0 →
        (∃ a, ((process_setup procs pid imgs kernelAS stackVA k).1.getD pid
                defProc).pagetable = some a
            ∧ a.l1pn = kernelAS.l1pn)
        ∧ (process_setup procs pid imgs kernelAS stackVA k).2.pageinfo.getD
            kernelAS.l1pn defFrame
          = ⟨(k.pageinfo.getD kernelAS.l1pn defFrame).owner,
             (k.pageinfo.getD kernelAS.l1pn defFrame).refcount + 1⟩) := by
  refine ⟨?_, ?_, ?_⟩
  · intro h
    rw [copy_pagetable, page_alloc_lite_fail k owner h]
  · intro hlt hafter
    have h1 := page_alloc_lite_success k owner hlt
    have h2 := page_alloc_lite_fail
      ({ k with pageinfo := k.pageinfo.set (find_free k.pageinfo) ⟨i8 owner, 1⟩ })
      owner hafter
    simp only [copy_pagetable, h1, h2]
  · intro hfail hpid hl1 h0 h126 hne
    rcases hcp : copy_pagetable kernelAS (i8 (pid : Int)) k with ⟨o1, k1⟩
    have ho1 : o1 = none := by rw [hcp] at hfail; exact hfail
    subst ho1
    -- the kernel table frame is untouched by the failed clone
    have hk1 : k1.pageinfo.getD kernelAS.l1pn defFrame
        = k.pageinfo.getD kernelAS.l1pn defFrame := by
      have hh := copy_pagetable_preserves_nonfree kernelAS (i8 (pid : Int)) k
        kernelAS.l1pn hne
      rwa [hcp] at hh
    have hk1len : k1.pageinfo.length = k.pageinfo.length := by
      have hh := copy_pagetable_length kernelAS (i8 (pid : Int)) k
      rwa [hcp] at hh
    -- the bump in the fallback:
    have hbump := bumpRefcount_eq k1 kernelAS.l1pn (by rw [hk1]; exact h0)
      (by rw [hk1]; exact h126)
    have hbumped : (bumpRefcount k1 kernelAS.l1pn).pageinfo.getD kernelAS.l1pn defFrame
        = ⟨(k.pageinfo.getD kernelAS.l1pn defFrame).owner,
           (k.pageinfo.getD kernelAS.l1pn defFrame).refcount + 1⟩ := by
      rw [hbump]
      show (k1.pageinfo.set kernelAS.l1pn _).getD kernelAS.l1pn defFrame = _
      rw [getD_set_self _ _ _ _ (by omega), hk1]
    have hbumpne : ((bumpRefcount k1 kernelAS.l1pn).pageinfo.getD kernelAS.l1pn
        defFrame).refcount ≠ 0 := by
      rw [hbumped]
      simp only []
      omega
    -- process_setup with the failing clone:
    simp only [process_setup, hcp]
    rcases hsp : sys_page_alloc_func
        (process_setup.program_load imgs pid (bumpRefcount k1 kernelAS.l1pn))
        stackVA (some kernelAS) (pid : Int) with ⟨r, pt, k3⟩
    have hload : (process_setup.program_load imgs pid
          (bumpRefcount k1 kernelAS.l1pn)).pageinfo.getD kernelAS.l1pn defFrame
        = ⟨(k.pageinfo.getD kernelAS.l1pn defFrame).owner,
           (k.pageinfo.getD kernelAS.l1pn defFrame).refcount + 1⟩ := by
      rw [program_load_preserves_nonfree _ _ _ _ hbumpne, hbumped]
    have hk3 : k3.pageinfo.getD kernelAS.l1pn defFrame
        = ⟨(k.pageinfo.getD kernelAS.l1pn defFrame).owner,
           (k.pageinfo.getD kernelAS.l1pn defFrame).refcount + 1⟩ := by
      have hh := sys_page_alloc_func_snd
        (process_setup.program_load imgs pid (bumpRefcount k1 kernelAS.l1pn))
        stackVA (some kernelAS) (pid : Int)
      rw [hsp] at hh
      have hpr := physical_page_alloc_preserves_nonfree
        (process_setup.program_load imgs pid (bumpRefcount k1 kernelAS.l1pn))
        (find_free (process_setup.program_load imgs pid
          (bumpRefcount k1 kernelAS.l1pn)).pageinfo * PAGESIZE) (pid : Int)
        kernelAS.l1pn (by rw [hload]; simp only []; omega)
      calc k3.pageinfo.getD kernelAS.l1pn defFrame
          = (physical_page_alloc (process_setup.program_load imgs pid
              (bumpRefcount k1 kernelAS.l1pn)) _ (pid : Int)).2.pageinfo.getD
              kernelAS.l1pn defFrame := by rw [← hh]
        _ = _ := by rw [hpr, hload]
    have hpt : ∃ a, pt = some a ∧ a.l1pn = kernelAS.l1pn := by
      have hh := hsp
      simp only [sys_page_alloc_func] at hh
      split at hh
      · cases hh
        exact ⟨_, rfl, virtual_memory_map_l1pn _ _ _ _ _⟩
      · cases hh
        exact ⟨kernelAS, rfl, rfl⟩
    obtain ⟨a, rfl, hal⟩ := hpt
    refine ⟨⟨a, ?_, hal⟩, hk3⟩
    rw [getD_set_self _ _ _ _ hpid]

/-- Counterexample to C4 as stated: on a state with exactly one free frame
the clone fails, yet the allocator state differs from the initial one (the
first allocation's frame stays claimed), and nothing aliasing the source
is returned. -/
theorem claim_C4_counterexample :
    (copy_pagetable ⟨5, 6, []⟩ 3 ⟨[⟨-2, 1⟩, ⟨0, 0⟩], [7, 8]⟩).1 = none
    ∧ (copy_pagetable ⟨5, 6, []⟩ 3 ⟨[⟨-2, 1⟩, ⟨0, 0⟩], [7, 8]⟩).2
        ≠ ⟨[⟨-2, 1⟩, ⟨0, 0⟩], [7, 8]⟩ := by
  decide

/-- Witness for C4: no-free-frame failure leaves the state unchanged, and
`process_setup`'s fallback aliases the kernel table with a refcount bump
after a failing clone, at concrete inputs. -/
theorem claim_C4_witness :
    copy_pagetable ⟨5, 6, []⟩ 3 ⟨[⟨-2, 1⟩, ⟨3, 1⟩], [7, 8]⟩
      = (none, ⟨[⟨-2, 1⟩, ⟨3, 1⟩], [7, 8]⟩)
    ∧ ((∃ a, ((process_setup [⟨0, PState.free, none, 0⟩, ⟨1, PState.free, none, 0⟩] 1 []
            ⟨0, 2, []⟩ 0 ⟨[⟨-2, 1⟩], [7]⟩).1.getD 1 defProc).pagetable = some a
          ∧ a.l1pn = (⟨0, 2, []⟩ : AddrSpace).l1pn)
        ∧ (process_setup [⟨0, PState.free, none, 0⟩, ⟨1, PState.free, none, 0⟩] 1 []
            ⟨0, 2, []⟩ 0 ⟨[⟨-2, 1⟩], [7]⟩).2.pageinfo.getD 0 defFrame = ⟨-2, 2⟩) := by
  constructor
  · exact (claim_C4_clone_failure ⟨5, 6, []⟩ 3 ⟨[⟨-2, 1⟩, ⟨3, 1⟩], [7, 8]⟩
      [] 0 [] ⟨0, 0, []⟩ 0).1 (by decide)
  · exact (claim_C4_clone_failure ⟨5, 6, []⟩ 3 ⟨[⟨-2, 1⟩], [7]⟩
      [⟨0, PState.free, none, 0⟩, ⟨1, PState.free, none, 0⟩] 1 [] ⟨0, 2, []⟩ 0).2.2
      (by decide) (by decide) (by decide) (by decide) (by decide) (by decide)

theorem getD_of_length_le {α : Type} (l : List α) (n : Nat) (d : α)
    (h : l.length ≤ n) : l.getD n d = d := by
  simp [List.getD, List.getElem?_eq_none h]

/-- A `none` result from `page_alloc_lite` leaves the state unchanged. -/
theorem page_alloc_lite_none_state {k : KernelState} {pid : Int}
    (h : (page_alloc_lite k pid).1 = none) : (page_alloc_lite k pid).2 = k := by
  by_cases hlt : find_free k.pageinfo < k.pageinfo.length
  · rw [page_alloc_lite_success k pid hlt] at h
    simp at h
  · rw [page_alloc_lite_none k pid (by omega)]

/-- Each frame record is either untouched by `page_alloc_lite` or was free
and is set to the freshly-claimed `⟨owner, 1⟩`. -/
theorem page_alloc_lite_getD_cases (k : KernelState) (pid : Int) (pn : Nat) :
    (page_alloc_lite k pid).2.pageinfo.getD pn defFrame = k.pageinfo.getD pn defFrame
    ∨ ((k.pageinfo.getD pn defFrame).refcount = 0
        ∧ (page_alloc_lite k pid).2.pageinfo.getD pn defFrame = ⟨i8 pid, 1⟩) := by
  rw [page_alloc_lite_snd]
  unfold physical_page_alloc
  split
  · exact Or.inl rfl
  next hc =>
    push_neg at hc
    have hff : find_free k.pageinfo < k.pageinfo.length := by
      have h2 : find_free k.pageinfo * 4096 < k.pageinfo.length * 4096 := by
        simpa [PAGESIZE] using hc.2.1
      omega
    have hdiv : find_free k.pageinfo * PAGESIZE / PAGESIZE = find_free k.pageinfo := by
      show find_free k.pageinfo * 4096 / 4096 = _
      omega
    rw [hdiv]
    by_cases he : find_free k.pageinfo = pn
    · refine Or.inr ⟨?_, ?_⟩
      · rw [← he]
        exact find_free_spec _ hff
      · rw [← he]
        exact getD_set_self _ _ _ _ hff
    · exact Or.inl (getD_set_ne _ _ _ _ _ he)

/-- Each frame record is either untouched by `copy_pagetable` or was free
and is freshly claimed. -/
theorem copy_pagetable_getD_cases (src : AddrSpace) (owner : Int) (k : KernelState)
    (pn : Nat) :
    (copy_pagetable src owner k).2.pageinfo.getD pn defFrame = k.pageinfo.getD pn defFrame
    ∨ ((k.pageinfo.getD pn defFrame).refcount = 0
        ∧ (copy_pagetable src owner k).2.pageinfo.getD pn defFrame = ⟨i8 owner, 1⟩) := by
  rcases hpa : page_alloc_lite k owner with ⟨o1, k1⟩
  have hc1 : k1.pageinfo.getD pn defFrame = k.pageinfo.getD pn defFrame
      ∨ ((k.pageinfo.getD pn defFrame).refcount = 0
          ∧ k1.pageinfo.getD pn defFrame = ⟨i8 owner, 1⟩) := by
    have hh := page_alloc_lite_getD_cases k owner pn
    rwa [hpa] at hh
  cases o1 with
  | none => simpa [copy_pagetable, hpa] using hc1
  | some pa1 =>
    rcases hpa2 : page_alloc_lite k1 owner with ⟨o2, k2⟩
    have hc2 : k2.pageinfo.getD pn defFrame = k1.pageinfo.getD pn defFrame
        ∨ ((k1.pageinfo.getD pn defFrame).refcount = 0
            ∧ k2.pageinfo.getD pn defFrame = ⟨i8 owner, 1⟩) := by
      have hh := page_alloc_lite_getD_cases k1 owner pn
      rwa [hpa2] at hh
    have hcomb : k2.pageinfo.getD pn defFrame = k.pageinfo.getD pn defFrame
        ∨ ((k.pageinfo.getD pn defFrame).refcount = 0
            ∧ k2.pageinfo.getD pn defFrame = ⟨i8 owner, 1⟩) := by
      rcases hc2 with h2 | ⟨hz2, h2⟩
      · rw [h2]; exact hc1
      · rcases hc1 with h1 | ⟨hz1, h1⟩
        · rw [h1] at hz2
          exact Or.inr ⟨hz2, h2⟩
        · rw [h1] at hz2
          norm_num at hz2
    cases o2 with
    | none => simpa [copy_pagetable, hpa, hpa2] using hcomb
    | some pa2 => simpa [copy_pagetable, hpa, hpa2] using hcomb

/-- Writing the parent's `%eax` does not change any slot's pid. -/
theorem getD_set_eax_pid (procs : List Proc) (curIdx : Nat) (v : Int) (j : Nat) :
    ((procs.set curIdx { procs.getD curIdx defProc with eax := v }).getD j defProc).pid
      = (procs.getD j defProc).pid := by
  by_cases hj : curIdx = j
  · subst hj
    by_cases hlt : curIdx < procs.length
    · rw [getD_set_self _ _ _ _ hlt]
    · rw [List.set_eq_of_length_le (by omega)]
  · rw [getD_set_ne _ _ _ _ _ hj]

/-- Writing the parent's `%eax` does not change any slot's page table. -/
theorem getD_set_eax_pagetable (procs : List Proc) (curIdx : Nat) (v : Int) (j : Nat) :
    ((procs.set curIdx { procs.getD curIdx defProc with eax := v }).getD j
        defProc).pagetable
      = (procs.getD j defProc).pagetable := by
  by_cases hj : curIdx = j
  · subst hj
    by_cases hlt : curIdx < procs.length
    · rw [getD_set_self _ _ _ _ hlt]
    · rw [List.set_eq_of_length_le (by omega)]
  · rw [getD_set_ne _ _ _ _ _ hj]

theorem lookup_injective_of_cons {a : AddrSpace} {v : Nat} {l : List Nat}
    (h : lookup_injective a (v :: l)) : lookup_injective a l :=
  fun va₁ h1 va₂ h2 => h va₁ (List.mem_cons_of_mem v h1) va₂ (List.mem_cons_of_mem v h2)

/-- The fork copy/share loop preserves the frame invariant together with
the refcount range `[0, 127]`, provided each parent-mapped frame enters
with one increment of headroom (`≤ 126`) and the parent's mapping is
injective over the remaining pages. -/
theorem fork_loop_inv (pAS : AddrSpace) (ppid newowner : Int) (vas : List Nat)
    (cpt : Option AddrSpace) (k : KernelState)
    (hppid : ppid ≠ 0) (hnew : i8 newowner ≠ 0)
    (hinv : pageinfo_inv k.pageinfo)
    (hok : ∀ f ∈ k.pageinfo, 0 ≤ f.refcount ∧ f.refcount ≤ 127)
    (hbound : ∀ va ∈ vas, permOf pAS va ≠ 0 →
        (k.pageinfo.getD (pnOf pAS va) defFrame).refcount ≤ 126)
    (hnodup : vas.Nodup) (hinj : lookup_injective pAS vas) :
    pageinfo_inv (fork_loop pAS ppid newowner vas cpt k).2.1.pageinfo
    ∧ ∀ f ∈ (fork_loop pAS ppid newowner vas cpt k).2.1.pageinfo,
        0 ≤ f.refcount ∧ f.refcount ≤ 127 := by
  induction vas generalizing cpt k with
  | nil => exact ⟨hinv, hok⟩
  | cons va rest ih =>
    have hnodup' := hnodup.of_cons
    have hmemva : va ∉ rest := (List.nodup_cons.mp hnodup).1
    have hinj' := lookup_injective_of_cons hinj
    simp only [fork_loop]
    split
    next hcond1 =>
      rcases hpa : page_alloc_lite k newowner with ⟨o, k1⟩
      cases o with
      | some pa =>
        have hpa1 : (page_alloc_lite k newowner).1 = some pa := by rw [hpa]
        obtain ⟨hlt, hpaeq⟩ := page_alloc_lite_isSome hpa1
        have hk1 : k1 = { k with
            pageinfo := k.pageinfo.set (find_free k.pageinfo) ⟨i8 newowner, 1⟩ } := by
          have hh := page_alloc_lite_success k newowner hlt
          rw [hpa] at hh
          injection hh with hfst hsnd
        simp only []
        have hinv1 : pageinfo_inv k1.pageinfo := by
          rw [hk1]
          exact pageinfo_inv_set _ hinv (fresh_frame_inv hnew)
        have hok1 : ∀ f ∈ k1.pageinfo, 0 ≤ f.refcount ∧ f.refcount ≤ 127 := by
          rw [hk1]
          intro f hf
          rcases List.mem_or_eq_of_mem_set hf with h1 | rfl
          · exact hok f h1
          · norm_num
        have hbound1 : ∀ va' ∈ rest, permOf pAS va' ≠ 0 →
            (k1.pageinfo.getD (pnOf pAS va') defFrame).refcount ≤ 126 := by
          intro va' hva' hp
          rw [hk1]
          by_cases he : find_free k.pageinfo = pnOf pAS va'
          · rw [← he, getD_set_self _ _ _ _ hlt]
            norm_num
          · rw [getD_set_ne _ _ _ _ _ he]
            exact hbound va' (by simp [hva']) hp
        exact ih _ _ hinv1 hok1 hbound1 hnodup' hinj'
      | none =>
        have hpa1 : (page_alloc_lite k newowner).1 = none := by rw [hpa]
        have hk1 : k1 = k := by
          have hh := page_alloc_lite_none_state hpa1
          rw [hpa] at hh
          exact hh
        subst hk1
        simp only []
        exact ⟨(ih _ _ hinv hok
            (fun va' hva' hp => hbound va' (by simp [hva']) hp) hnodup' hinj').1,
          (ih _ _ hinv hok
            (fun va' hva' hp => hbound va' (by simp [hva']) hp) hnodup' hinj').2⟩
    next hcond1 =>
      split
      next hcond2 =>
        obtain ⟨hperm, hown⟩ := hcond2
        have hpn : pnOf pAS va = (virtual_memory_lookup pAS va).pn.toNat := rfl
        have hrange : (virtual_memory_lookup pAS va).pn.toNat < k.pageinfo.length := by
          by_contra hge
          push_neg at hge
          rw [getD_of_length_le _ _ _ hge] at hown
          exact hppid (by simpa [defFrame] using hown.symm)
        have hmem := getD_mem_of_lt k.pageinfo _ defFrame hrange
        have h0 := (hok _ hmem).1
        have h126 : (k.pageinfo.getD (virtual_memory_lookup pAS va).pn.toNat
            defFrame).refcount ≤ 126 := by
          have := hbound va (by simp) (by simpa [permOf] using hperm)
          simpa [pnOf] using this
        have hbeq := bumpRefcount_eq k (virtual_memory_lookup pAS va).pn.toNat h0
          (by omega)
        have hinv1 : pageinfo_inv (bumpRefcount k
            (virtual_memory_lookup pAS va).pn.toNat).pageinfo :=
          bumpRefcount_inv k _ hinv (by rw [hown]; exact hppid) h0 (by omega)
        have hok1 : ∀ f ∈ (bumpRefcount k
            (virtual_memory_lookup pAS va).pn.toNat).pageinfo,
            0 ≤ f.refcount ∧ f.refcount ≤ 127 := by
          rw [hbeq]
          intro f hf
          rcases List.mem_or_eq_of_mem_set hf with h1 | rfl
          · exact hok f h1
          · constructor
            · simp only []
              omega
            · simp only []
              omega
        have hbound1 : ∀ va' ∈ rest, permOf pAS va' ≠ 0 →
            ((bumpRefcount k (virtual_memory_lookup pAS va).pn.toNat).pageinfo.getD
              (pnOf pAS va') defFrame).refcount ≤ 126 := by
          intro va' hva' hp
          rw [hbeq]
          have hne : (virtual_memory_lookup pAS va).pn.toNat ≠ pnOf pAS va' := by
            have := hinj va (by simp) va' (by simp [hva'])
              (fun hc => hmemva (hc ▸ hva')) (by simpa [permOf] using hperm) hp
            simpa [pnOf] using this
          rw [getD_set_ne _ _ _ _ _ hne]
          exact hbound va' (by simp [hva']) hp
        simp only []
        exact ih _ _ hinv1 hok1 hbound1 hnodup' hinj'
      next hcond2 =>
        exact ih _ _ hinv hok
          (fun va' hva' hp => hbound va' (by simp [hva']) hp) hnodup' hinj'

theorem i8_idem (x : Int) : i8 (i8 x) = i8 x :=
  i8_eq_self (i8_lb x) (i8_ub x)

theorem refcountOk_getD {pi : List Frame} (h : refcountOk pi) (pn : Nat) :
    0 ≤ (pi.getD pn defFrame).refcount ∧ (pi.getD pn defFrame).refcount ≤ 126 := by
  by_cases hlt : pn < pi.length
  · exact h _ (getD_mem_of_lt pi pn defFrame hlt)
  · rw [getD_of_length_le _ _ _ (by omega)]
    norm_num [defFrame]

/-- The success path of fork preserves the frame invariant. -/
theorem fork_success_inv (uservas : List Nat) (procs : List Proc)
    (curIdx newpid : Nat) (k : KernelState)
    (hinv : pageinfo_inv k.pageinfo)
    (hok : refcountOk k.pageinfo)
    (hpid : (procs.getD curIdx defProc).pid ≠ 0)
    (hnew : i8 (newpid : Int) ≠ 0)
    (hnodup : uservas.Nodup)
    (hinj : ∀ pAS, (procs.getD curIdx defProc).pagetable = some pAS →
        lookup_injective pAS uservas) :
    pageinfo_inv (fork_success uservas procs curIdx newpid k).2.1.pageinfo := by
  rcases hpt : (procs.getD curIdx defProc).pagetable with _ | pAS
  · simp only [fork_success, hpt]
    exact hinv
  · simp only [fork_success, hpt]
    have hnew' : i8 (i8 (newpid : Int)) ≠ 0 := by rw [i8_idem]; exact hnew
    have hinvc : pageinfo_inv (copy_pagetable pAS (i8 (newpid : Int)) k).2.pageinfo :=
      copy_pagetable_inv pAS k hnew' hinv
    have hokc : refcountOk (copy_pagetable pAS (i8 (newpid : Int)) k).2.pageinfo :=
      copy_pagetable_refcountOk pAS _ k hok
    exact (fork_loop_inv pAS (procs.getD curIdx defProc).pid (i8 (newpid : Int))
      uservas _ _ hpid hnew' hinvc
      (fun f hf => ⟨(hokc f hf).1, by have := (hokc f hf).2; omega⟩)
      (fun va _ _ => (refcountOk_getD hokc _).2)
      hnodup (hinj pAS hpt)).1

/-- The fork slot scan preserves the frame invariant. -/
theorem fork_scan_inv (uservas : List Nat) (curIdx : Nat) (cands : List Nat)
    (procs : List Proc) (k : KernelState)
    (hinv : pageinfo_inv k.pageinfo)
    (hok : refcountOk k.pageinfo)
    (hpid : (procs.getD curIdx defProc).pid ≠ 0)
    (hcands : ∀ j ∈ cands, i8 (j : Int) ≠ 0)
    (hnodup : uservas.Nodup)
    (hinj : ∀ pAS, (procs.getD curIdx defProc).pagetable = some pAS →
        lookup_injective pAS uservas) :
    pageinfo_inv (fork_scan uservas curIdx cands procs k).2.1.pageinfo := by
  induction cands generalizing procs with
  | nil => exact hinv
  | cons c rest ih =>
    rw [fork_scan]
    split
    · exact fork_success_inv uservas procs curIdx c k hinv hok hpid
        (hcands c (by simp)) hnodup hinj
    · split
      · refine ih _ ?_ (fun j hj => hcands j (by simp [hj])) ?_
        · rw [getD_set_eax_pid]
          exact hpid
        · intro pAS hpt
          rw [getD_set_eax_pagetable] at hpt
          exact hinj pAS hpt
      · exact ih _ hpid (fun j hj => hcands j (by simp [hj])) hinj

/-- `process_setup` preserves the frame invariant. -/
theorem process_setup_inv (procs : List Proc) (pid : Nat) (imgs : List Nat)
    (kernelAS : AddrSpace) (stackVA : Nat) (k : KernelState)
    (hpid : i8 (pid : Int) ≠ 0)
    (hinv : pageinfo_inv k.pageinfo)
    (hok : refcountOk k.pageinfo)
    (hl1 : kernelAS.l1pn < k.pageinfo.length)
    (hown : (k.pageinfo.getD kernelAS.l1pn defFrame).owner ≠ 0) :
    pageinfo_inv (process_setup procs pid imgs kernelAS stackVA k).2.pageinfo := by
  have hpid' : i8 (i8 (pid : Int)) ≠ 0 := by rw [i8_idem]; exact hpid
  rcases hcp : copy_pagetable kernelAS (i8 (pid : Int)) k with ⟨o, k1⟩
  have hinv1 : pageinfo_inv k1.pageinfo := by
    have hh := copy_pagetable_inv kernelAS k hpid' hinv
    rwa [hcp] at hh
  have hfin : ∀ (kmid : KernelState) (pt : AddrSpace), pageinfo_inv kmid.pageinfo →
      pageinfo_inv (sys_page_alloc_func (process_setup.program_load imgs pid kmid)
        stackVA (some pt) (pid : Int)).2.2.pageinfo := by
    intro kmid pt hmid
    rw [sys_page_alloc_func_snd]
    exact physical_page_alloc_inv _ _ hpid (program_load_inv imgs _ hpid hmid)
  cases o with
  | some a =>
    simp only [process_setup, hcp]
    exact hfin k1 _ hinv1
  | none =>
    simp only [process_setup, hcp]
    -- the fallback bump on the kernel table frame
    have hrc : (k.pageinfo.getD kernelAS.l1pn defFrame).refcount ≠ 0 := by
      intro hc
      exact hown ((hinv _ (getD_mem_of_lt _ _ _ hl1)).mp hc)
    have hk1f : k1.pageinfo.getD kernelAS.l1pn defFrame
        = k.pageinfo.getD kernelAS.l1pn defFrame := by
      have hh := copy_pagetable_preserves_nonfree kernelAS (i8 (pid : Int)) k
        kernelAS.l1pn hrc
      rwa [hcp] at hh
    have hb := refcountOk_getD hok kernelAS.l1pn
    have hinvb : pageinfo_inv (bumpRefcount k1 kernelAS.l1pn).pageinfo :=
      bumpRefcount_inv k1 _ hinv1 (by rw [hk1f]; exact hown)
        (by rw [hk1f]; exact hb.1) (by rw [hk1f]; exact hb.2)
    exact hfin _ _ hinvb

/-- **C1.** The frame invariant — `refcount == 0` iff `owner == free` — is
established by boot initialization (`pageinfo_init`) and preserved by every
operation of the core: `allocate_at` (`physical_page_alloc`), `allocate`
(`page_alloc_lite`), clone (`copy_pagetable`), create (`process_setup`),
fork (the `INT_SYS_FORK` handler) and the page-alloc syscall
(`sys_page_alloc_func`), under the reachable-state side conditions: owners
written are non-free tags, refcounts are in `[0, 126]`, the process table
has at most 127 slots, and the parent's user mapping is duplicate-free. -/
theorem claim_C1_frame_invariant :
    (∀ npages reserved kernelRange,
      pageinfo_inv (pageinfo_init npages reserved kernelRange))
    ∧ (∀ k addr owner, i8 owner ≠ 0 → pageinfo_inv k.pageinfo →
        pageinfo_inv (physical_page_alloc k addr owner).2.pageinfo)
    ∧ (∀ k pid, i8 pid ≠ 0 → pageinfo_inv k.pageinfo →
        pageinfo_inv (page_alloc_lite k pid).2.pageinfo)
    ∧ (∀ src owner k, i8 owner ≠ 0 → pageinfo_inv k.pageinfo →
        pageinfo_inv (copy_pagetable src owner k).2.pageinfo)
    ∧ (∀ procs pid imgs kernelAS stackVA k, i8 ((pid : Nat) : Int) ≠ 0 →
        pageinfo_inv k.pageinfo → refcountOk k.pageinfo →
        kernelAS.l1pn < k.pageinfo.length →
        (k.pageinfo.getD kernelAS.l1pn defFrame).owner ≠ 0 →
        pageinfo_inv (process_setup procs pid imgs kernelAS stackVA k).2.pageinfo)
    ∧ (∀ uservas procs curIdx k, pageinfo_inv k.pageinfo → refcountOk k.pageinfo →
        (procs.getD curIdx defProc).pid ≠ 0 →
        procs.length ≤ 127 →
        uservas.Nodup →
        (∀ pAS, (procs.getD curIdx defProc).pagetable = some pAS →
          lookup_injective pAS uservas) →
        pageinfo_inv (fork_handler uservas procs curIdx k).2.1.pageinfo)
    ∧ (∀ k addr pt pid, i8 pid ≠ 0 → pageinfo_inv k.pageinfo →
        pageinfo_inv (sys_page_alloc_func k addr pt pid).2.2.pageinfo) := by
  refine ⟨?_, ?_, ?_, ?_, ?_, ?_, ?_⟩
  · intro npages reserved kernelRange f hf
    simp only [pageinfo_init, List.mem_map] at hf
    obtain ⟨pn, _, rfl⟩ := hf
    by_cases h1 : reserved pn
    · simp [h1, PO_RESERVED, PO_FREE]
    · by_cases h2 : kernelRange pn
      · simp [h1, h2, PO_KERNEL, PO_FREE]
      · simp [h1, h2, PO_FREE]
  · exact fun k addr owner h hi => physical_page_alloc_inv k addr h hi
  · exact fun k pid h hi => page_alloc_lite_inv k h hi
  · exact fun src owner k h hi => copy_pagetable_inv src k h hi
  · exact fun procs pid imgs kernelAS stackVA k h hi ho hl hw =>
      process_setup_inv procs pid imgs kernelAS stackVA k h hi ho hl hw
  · intro uservas procs curIdx k hinv hok hpid hlen hnodup hinj
    refine fork_scan_inv uservas curIdx _ procs k hinv hok hpid ?_ hnodup hinj
    intro j hj
    rw [List.mem_range'_1] at hj
    have hjle : j ≤ 126 := by omega
    rw [i8_eq_self (by omega) (by omega)]
    omega
  · intro k addr pt pid h hi
    rw [sys_page_alloc_func_snd]
    exact physical_page_alloc_inv k _ h hi

/-- Witness for C1: the invariant evaluated across a concrete boot record,
a concrete allocation, and a concrete fork. -/
theorem claim_C1_witness :
    pageinfo_inv (pageinfo_init 3 (fun pn => pn == 0) (fun pn => pn == 1))
    ∧ pageinfo_inv (page_alloc_lite ⟨[⟨-2, 1⟩, ⟨0, 0⟩], [5, 6]⟩ 3).2.pageinfo
    ∧ pageinfo_inv (fork_handler [0x100000]
        [⟨0, PState.free, none, 0⟩,
         ⟨1, PState.runnable, some ⟨9, 10, [(256, 3, 7)]⟩, 0⟩,
         ⟨2, PState.free, none, 0⟩] 1
        ⟨[⟨-2, 1⟩, ⟨0, 0⟩, ⟨0, 0⟩, ⟨1, 1⟩], [10, 11, 12, 13]⟩).2.1.pageinfo :=
  ⟨(claim_C1_frame_invariant.1 3 _ _),
   (claim_C1_frame_invariant.2.2.1 ⟨[⟨-2, 1⟩, ⟨0, 0⟩], [5, 6]⟩ 3 (by decide)
      (by unfold pageinfo_inv; decide)),
   (claim_C1_frame_invariant.2.2.2.2.2.1
      [0x100000]
      [⟨0, PState.free, none, 0⟩,
       ⟨1, PState.runnable, some ⟨9, 10, [(256, 3, 7)]⟩, 0⟩,
       ⟨2, PState.free, none, 0⟩] 1
      ⟨[⟨-2, 1⟩, ⟨0, 0⟩, ⟨0, 0⟩, ⟨1, 1⟩], [10, 11, 12, 13]⟩
      (by unfold pageinfo_inv; decide) (by unfold refcountOk; decide)
      (by decide) (by decide) (by decide)
      (by intro pAS hpt i h1 j h2 hne hp1 hp2; simp at h1 h2; omega))⟩

/-- The copy/share loop cannot conjure a child table out of `NULL`. -/
theorem fork_loop_none (pAS : AddrSpace) (ppid newowner : Int) (vas : List Nat)
    (k : KernelState) :
    (fork_loop pAS ppid newowner vas none k).1 = none := by
  induction vas generalizing k with
  | nil => rfl
  | cons va rest ih =>
    simp only [fork_loop]
    split
    · rcases page_alloc_lite k newowner with ⟨o, k1⟩
      cases o with
      | some pa => simpa using ih _
      | none => simpa using ih _
    · split
      · simpa using ih _
      · exact ih _

/-- The page-alloc syscall never nulls out a non-null page-table pointer. -/
theorem sys_page_alloc_func_some (k : KernelState) (addr : Nat) (pt : AddrSpace)
    (pid : Int) : ∃ a, (sys_page_alloc_func k addr (some pt) pid).2.1 = some a := by
  simp only [sys_page_alloc_func]
  split
  · exact ⟨_, rfl⟩
  · exact ⟨pt, rfl⟩

/-- **C9.** When the address-space clone inside fork fails (either of its
allocations), the newly claimed child slot is still made `P_RUNNABLE` and
its page-table reference is left `NULL`; fork has no fallback, so the
scheduler will select the child — reachable in one step from pid
`newpid - 1` — with no valid page table.  `create` (`process_setup`), by
contrast, never leaves a null reference: its fallback installs an aliased
table. -/
theorem claim_C9_fork_null_child (uservas : List Nat) (procs : List Proc)
    (curIdx newpid : Nat) (k : KernelState) (pAS : AddrSpace)
    (hlen : procs.length = 16)
    (h1 : 1 ≤ newpid) (h15 : newpid ≤ 15)
    (hfree : (procs.getD newpid defProc).state = PState.free)
    (hmin : ∀ j, 1 ≤ j → j < newpid → (procs.getD j defProc).state ≠ PState.free)
    (hpt : (procs.getD curIdx defProc).pagetable = some pAS)
    (hfail : (copy_pagetable pAS (i8 (newpid : Int)) k).1 = none)
    (hne : curIdx ≠ newpid) :
    ((fork_handler uservas procs curIdx k).1.getD newpid defProc).state
        = PState.runnable
    ∧ ((fork_handler uservas procs curIdx k).1.getD newpid defProc).pagetable = none
    ∧ schedule_pick (fork_handler uservas procs curIdx k).1 (newpid - 1) 1
        = some newpid
    ∧ (∀ (procs' : List Proc) (pid : Nat) imgs kAS stackVA kk, pid < procs'.length →
        ∃ a, ((process_setup procs' pid imgs kAS stackVA kk).1.getD pid
            defProc).pagetable = some a) := by
  have hsplit : List.range' 1 (procs.length - 1)
      = List.range' 1 (newpid - 1) ++ newpid :: List.range' (newpid + 1) (15 - newpid) := by
    rw [hlen]
    have e1 : List.range' 1 (newpid - 1) ++ List.range' (1 + (newpid - 1)) (16 - newpid)
        = List.range' 1 (16 - newpid + (newpid - 1)) := List.range'_append_1 1 (newpid - 1) _
    have e2 : 1 + (newpid - 1) = newpid := by omega
    have e3 : 16 - newpid + (newpid - 1) = 15 := by omega
    have e4 : 16 - newpid = (15 - newpid) + 1 := by omega
    rw [e2, e3] at e1
    rw [← e1, e4, List.range'_succ]
  have hrun : fork_handler uservas procs curIdx k
      = fork_success uservas procs curIdx newpid k := by
    rw [fork_handler, hsplit]
    exact fork_scan_first_free uservas curIdx _ newpid _ procs k
      (fun j hj => by
        rw [List.mem_range'_1] at hj
        exact ⟨hmin j hj.1 (by omega), by omega⟩)
      hfree
  rcases hcp : copy_pagetable pAS (i8 (newpid : Int)) k with ⟨o, k1⟩
  have ho : o = none := by rw [hcp] at hfail; exact hfail
  subst ho
  have hnull : (fork_loop pAS (procs.getD curIdx defProc).pid (i8 (newpid : Int))
      uservas (copy_pagetable pAS (i8 (newpid : Int)) k).1
      (copy_pagetable pAS (i8 (newpid : Int)) k).2).1 = none := by
    rw [hcp]
    exact fork_loop_none pAS _ _ uservas k1
  have hchild : (fork_handler uservas procs curIdx k).1.getD newpid defProc
      = { procs.getD newpid defProc with
          state := PState.runnable,
          pagetable := (fork_loop pAS (procs.getD curIdx defProc).pid
            (i8 (newpid : Int)) uservas (copy_pagetable pAS (i8 (newpid : Int)) k).1
            (copy_pagetable pAS (i8 (newpid : Int)) k).2).1,
          eax := 0 } := by
    rw [hrun]
    simp only [fork_success, hpt]
    rw [getD_set_ne _ _ _ _ _ hne, getD_set_self _ _ _ _ (by omega)]
  refine ⟨by rw [hchild], by rw [hchild]; exact hnull, ?_, ?_⟩
  · have hlen' : (fork_handler uservas procs curIdx k).1.length = procs.length := by
      rw [hrun]
      simp only [fork_success, hpt]
      simp [List.length_set]
    rw [schedule_pick]
    have hidx : (newpid - 1 + 1) % (fork_handler uservas procs curIdx k).1.length
        = newpid := by
      rw [hlen', hlen]
      omega
    rw [hidx, if_pos (by rw [hchild])]
  · intro procs' pid imgs kAS stackVA kk hplt
    rcases hcp2 : copy_pagetable kAS (i8 (pid : Int)) kk with ⟨o2, k2⟩
    cases o2 with
    | some a =>
      simp only [process_setup, hcp2]
      rw [getD_set_self _ _ _ _ hplt]
      exact sys_page_alloc_func_some _ _ _ _
    | none =>
      simp only [process_setup, hcp2]
      rw [getD_set_self _ _ _ _ hplt]
      exact sys_page_alloc_func_some _ _ _ _

/-- Witness for C9: a concrete fork with no free frames — the child (pid 2)
is runnable with a `NULL` page table, and the scheduler hands control to
it. -/
theorem claim_C9_witness :
    ((fork_handler [] [⟨0, PState.free, none, 0⟩,
        ⟨1, PState.runnable, some ⟨0, 0, []⟩, 0⟩, ⟨2, PState.free, none, 0⟩,
        ⟨3, PState.free, none, 0⟩, ⟨4, PState.free, none, 0⟩,
        ⟨5, PState.free, none, 0⟩, ⟨6, PState.free, none, 0⟩,
        ⟨7, PState.free, none, 0⟩, ⟨8, PState.free, none, 0⟩,
        ⟨9, PState.free, none, 0⟩, ⟨10, PState.free, none, 0⟩,
        ⟨11, PState.free, none, 0⟩, ⟨12, PState.free, none, 0⟩,
        ⟨13, PState.free, none, 0⟩, ⟨14, PState.free, none, 0⟩,
        ⟨15, PState.free, none, 0⟩] 1 ⟨[⟨-2, 1⟩], [9]⟩).1.getD 2 defProc).state
      = PState.runnable
    ∧ ((fork_handler [] [⟨0, PState.free, none, 0⟩,
        ⟨1, PState.runnable, some ⟨0, 0, []⟩, 0⟩, ⟨2, PState.free, none, 0⟩,
        ⟨3, PState.free, none, 0⟩, ⟨4, PState.free, none, 0⟩,
        ⟨5, PState.free, none, 0⟩, ⟨6, PState.free, none, 0⟩,
        ⟨7, PState.free, none, 0⟩, ⟨8, PState.free, none, 0⟩,
        ⟨9, PState.free, none, 0⟩, ⟨10, PState.free, none, 0⟩,
        ⟨11, PState.free, none, 0⟩, ⟨12, PState.free, none, 0⟩,
        ⟨13, PState.free, none, 0⟩, ⟨14, PState.free, none, 0⟩,
        ⟨15, PState.free, none, 0⟩] 1 ⟨[⟨-2, 1⟩], [9]⟩).1.getD 2 defProc).pagetable
      = none := by
  have h := claim_C9_fork_null_child [] [⟨0, PState.free, none, 0⟩,
      ⟨1, PState.runnable, some ⟨0, 0, []⟩, 0⟩, ⟨2, PState.free, none, 0⟩,
      ⟨3, PState.free, none, 0⟩, ⟨4, PState.free, none, 0⟩,
      ⟨5, PState.free, none, 0⟩, ⟨6, PState.free, none, 0⟩,
      ⟨7, PState.free, none, 0⟩, ⟨8, PState.free, none, 0⟩,
      ⟨9, PState.free, none, 0⟩, ⟨10, PState.free, none, 0⟩,
      ⟨11, PState.free, none, 0⟩, ⟨12, PState.free, none, 0⟩,
      ⟨13, PState.free, none, 0⟩, ⟨14, PState.free, none, 0⟩,
      ⟨15, PState.free, none, 0⟩] 1 2 ⟨[⟨-2, 1⟩], [9]⟩ ⟨0, 0, []⟩
    (by decide) (by decide) (by decide) (by decide) (by decide) (by decide) (by decide)
    (by decide)
  exact ⟨h.1, h.2.1⟩

/-! ### Lookup and map lemmas -/

/-- Lookup depends only on the leaf entries. -/
theorem lookup_congr_entries {a b : AddrSpace} (h : a.entries = b.entries) (va : Nat) :
    virtual_memory_lookup a va = virtual_memory_lookup b va := by
  unfold virtual_memory_lookup
  rw [h]

/-- A present mapping is fully described by its frame number and
permissions, and carries the `PTE_P` bit. -/
theorem lookup_present {a : AddrSpace} {va : Nat}
    (h : (virtual_memory_lookup a va).perm ≠ 0) :
    virtual_memory_lookup a va
      = ⟨(pnOf a va : Int), pnOf a va * PAGESIZE + va % PAGESIZE, permOf a va⟩
    ∧ permOf a va &&& PTE_P ≠ 0 := by
  unfold pnOf permOf
  unfold virtual_memory_lookup at h ⊢
  rcases hf : a.entries.find? (fun e => e.1 = va / PAGESIZE) with _ | e
  · rw [hf] at h
    simp at h
  · rw [hf] at h ⊢
    by_cases hP : e.2.2 &&& PTE_P ≠ 0
    · simp only [if_pos hP] at h ⊢
      refine ⟨?_, hP⟩
      simp
    · simp only [if_neg hP] at h
      simp at h

/-- Mapping a single page (`length = PAGESIZE`) is one leaf-entry insert. -/
theorem virtual_memory_map_one (a : AddrSpace) (va pa perm : Nat) :
    virtual_memory_map a va pa PAGESIZE perm = virtual_memory_map_page a va pa perm := by
  show (List.range ((PAGESIZE + PAGESIZE - 1) / PAGESIZE)).foldl _ a = _
  have h1 : (PAGESIZE + PAGESIZE - 1) / PAGESIZE = 1 := by norm_num [PAGESIZE]
  rw [h1]
  show virtual_memory_map_page a (va + PAGESIZE * 0) (pa + PAGESIZE * 0) perm = _
  norm_num

/-- Lookup at the page just mapped. -/
theorem lookup_map_page_eq (a : AddrSpace) (va pa perm va' : Nat)
    (h : va' / PAGESIZE = va / PAGESIZE) (hP : perm &&& PTE_P ≠ 0) :
    virtual_memory_lookup (virtual_memory_map_page a va pa perm) va'
      = ⟨((pa / PAGESIZE : Nat) : Int), pa / PAGESIZE * PAGESIZE + va' % PAGESIZE, perm⟩ := by
  unfold virtual_memory_lookup virtual_memory_map_page
  rw [List.find?_cons_of_pos _ (by simp [h])]
  simp only [if_pos hP]

/-- Lookup at any other page is unchanged by a map. -/
theorem lookup_map_page_ne (a : AddrSpace) (va pa perm va' : Nat)
    (h : va' / PAGESIZE ≠ va / PAGESIZE) :
    virtual_memory_lookup (virtual_memory_map_page a va pa perm) va'
      = virtual_memory_lookup a va' := by
  unfold virtual_memory_lookup virtual_memory_map_page
  rw [List.find?_cons_of_neg _ (by simpa using Ne.symm h)]

/-! ### Free-frame counting -/

theorem freeCount_set_nonzero (pi : List Frame) (pn : Nat) (f : Frame)
    (h : (pi.getD pn defFrame).refcount ≠ 0) (hf : f.refcount ≠ 0) :
    freeCount (pi.set pn f) = freeCount pi := by
  induction pi generalizing pn with
  | nil => rfl
  | cons g gs ih =>
    match pn with
    | 0 =>
      simp only [List.getD_cons_zero] at h
      simp only [List.set]
      unfold freeCount
      rw [List.countP_cons, List.countP_cons]
      simp [h, hf]
    | pn + 1 =>
      simp only [List.getD_cons_succ] at h
      simp only [List.set]
      unfold freeCount
      rw [List.countP_cons, List.countP_cons]
      have := ih pn h
      unfold freeCount at this
      omega

theorem freeCount_set_zero (pi : List Frame) (pn : Nat) (f : Frame)
    (hlt : pn < pi.length)
    (h : (pi.getD pn defFrame).refcount = 0) (hf : f.refcount ≠ 0) :
    freeCount (pi.set pn f) + 1 = freeCount pi := by
  induction pi generalizing pn with
  | nil => simp at hlt
  | cons g gs ih =>
    match pn with
    | 0 =>
      simp only [List.getD_cons_zero] at h
      simp only [List.set]
      unfold freeCount
      rw [List.countP_cons, List.countP_cons]
      simp [h, hf]
    | pn + 1 =>
      simp only [List.getD_cons_succ] at h
      simp only [List.set]
      unfold freeCount
      rw [List.countP_cons, List.countP_cons]
      have := ih pn (by simpa using hlt) h
      unfold freeCount at this
      omega

theorem freeCount_pos (pi : List Frame) :
    0 < freeCount pi ↔ find_free pi < pi.length := by
  constructor
  · intro h
    have : ∃ f ∈ pi, f.refcount == 0 := List.countP_pos_iff.mp h
    obtain ⟨f, hf, hf0⟩ := this
    exact find_free_lt_length pi ⟨f, hf, by simpa using hf0⟩
  · intro h
    refine List.countP_pos_iff.mpr ⟨pi.getD (find_free pi) defFrame,
      getD_mem_of_lt _ _ _ h, by simpa using find_free_spec pi h⟩

theorem page_alloc_lite_mem (k : KernelState) (pid : Int) :
    (page_alloc_lite k pid).2.mem = k.mem := by
  rw [page_alloc_lite_snd]
  unfold physical_page_alloc
  split <;> rfl

theorem copy_pagetable_mem (src : AddrSpace) (owner : Int) (k : KernelState) :
    (copy_pagetable src owner k).2.mem = k.mem := by
  rcases hpa : page_alloc_lite k owner with ⟨o1, k1⟩
  have h1 : k1.mem = k.mem := by
    have hh := page_alloc_lite_mem k owner
    rwa [hpa] at hh
  cases o1 with
  | none => simpa [copy_pagetable, hpa] using h1
  | some pa1 =>
    rcases hpa2 : page_alloc_lite k1 owner with ⟨o2, k2⟩
    have h2 : k2.mem = k1.mem := by
      have hh := page_alloc_lite_mem k1 owner
      rwa [hpa2] at hh
    cases o2 with
    | none => simp only [copy_pagetable, hpa, hpa2]; rw [h2, h1]
    | some pa2 => simp only [copy_pagetable, hpa, hpa2]; rw [h2, h1]

theorem page_alloc_lite_freeCount (k : KernelState) (pid : Int)
    (h : find_free k.pageinfo < k.pageinfo.length) :
    freeCount (page_alloc_lite k pid).2.pageinfo + 1 = freeCount k.pageinfo := by
  rw [page_alloc_lite_success k pid h]
  exact freeCount_set_zero _ _ _ h (find_free_spec _ h) (by norm_num)

/-- Claiming the first free frame reduces the free count by one. -/
theorem freeCount_after_claim (pi : List Frame) (owner : Int)
    (h : find_free pi < pi.length) :
    freeCount (pi.set (find_free pi) ⟨i8 owner, 1⟩) + 1 = freeCount pi :=
  freeCount_set_zero _ _ _ h (find_free_spec _ h) (by norm_num)

/-- With at least two free frames, `copy_pagetable` succeeds, producing a
table with the source's leaf entries and consuming exactly two frames. -/
theorem copy_pagetable_success_spec (src : AddrSpace) (owner : Int) (k : KernelState)
    (hfree : 2 ≤ freeCount k.pageinfo) :
    ∃ a, (copy_pagetable src owner k).1 = some a ∧ a.entries = src.entries
      ∧ freeCount (copy_pagetable src owner k).2.pageinfo + 2 = freeCount k.pageinfo := by
  have hlt1 : find_free k.pageinfo < k.pageinfo.length :=
    (freeCount_pos _).mp (by omega)
  have hfc1 := freeCount_after_claim k.pageinfo owner hlt1
  have hs1 := page_alloc_lite_success k owner hlt1
  have hlt2 : find_free (k.pageinfo.set (find_free k.pageinfo) ⟨i8 owner, 1⟩)
      < (k.pageinfo.set (find_free k.pageinfo) ⟨i8 owner, 1⟩).length :=
    (freeCount_pos _).mp (by omega)
  have hfc2 := freeCount_after_claim _ owner hlt2
  have hs2 := page_alloc_lite_success
    { k with pageinfo := k.pageinfo.set (find_free k.pageinfo) ⟨i8 owner, 1⟩ } owner hlt2
  refine ⟨⟨find_free k.pageinfo * PAGESIZE / PAGESIZE,
      find_free (k.pageinfo.set (find_free k.pageinfo) ⟨i8 owner, 1⟩) * PAGESIZE / PAGESIZE,
      src.entries⟩, ?_, rfl, ?_⟩
  · simp only [copy_pagetable, hs1, hs2]
  · simp only [copy_pagetable, hs1, hs2]
    omega

theorem and_ne_zero {x y : Nat} (h : x &&& y ≠ 0) : x ≠ 0 := by
  intro hc
  subst hc
  simp at h

theorem aligned_div_ne {va va' : Nat} (h1 : va % PAGESIZE = 0) (h2 : va' % PAGESIZE = 0)
    (h : va ≠ va') : va / PAGESIZE ≠ va' / PAGESIZE := by
  revert h1 h2 h
  show va % 4096 = 0 → va' % 4096 = 0 → va ≠ va' → va / 4096 ≠ va' / 4096
  omega

/-- The main specification of the fork copy/share loop, relative to its
entry state `k` and entry child table `a0`, under enough free frames for
every private copy: no null dereference happens, and for each user page,
a copy-qualifying page gets a fresh frame with copied contents, a
share-qualifying page keeps the parent's frame with its refcount bumped by
exactly one, and any other page keeps whatever mapping `a0` has; frames
that the loop has no business with are untouched. -/
theorem fork_loop_spec (pAS : AddrSpace) (ppid newowner : Int) (vas : List Nat)
    (a0 : AddrSpace) (k : KernelState)
    (hppid : ppid ≠ 0) (hnewo : i8 newowner ≠ ppid) (hnew0 : i8 newowner ≠ 0)
    (hinv : pageinfo_inv k.pageinfo)
    (hok : ∀ f ∈ k.pageinfo, 0 ≤ f.refcount ∧ f.refcount ≤ 127)
    (hbound : ∀ va ∈ vas, permOf pAS va ≠ 0 →
        (k.pageinfo.getD (pnOf pAS va) defFrame).refcount ≤ 126)
    (haligned : ∀ va ∈ vas, va % PAGESIZE = 0)
    (hnodup : vas.Nodup)
    (hinj : lookup_injective pAS vas)
    (hmemlen : k.mem.length = k.pageinfo.length)
    (hfree : vas.countP (fun va => decide (qualCopy k pAS ppid va))
        ≤ freeCount k.pageinfo) :
    ∃ a', (fork_loop pAS ppid newowner vas (some a0) k).1 = some a'
    ∧ (fork_loop pAS ppid newowner vas (some a0) k).2.2 = false
    ∧ (∀ va ∈ vas, qualCopy k pAS ppid va →
        ∃ pn', virtual_memory_lookup a' va
            = ⟨((pn' : Nat) : Int), pn' * PAGESIZE + va % PAGESIZE, permOf pAS va⟩
          ∧ (k.pageinfo.getD pn' defFrame).refcount = 0
          ∧ (fork_loop pAS ppid newowner vas (some a0) k).2.1.pageinfo.getD pn' defFrame
              = ⟨i8 newowner, 1⟩
          ∧ (fork_loop pAS ppid newowner vas (some a0) k).2.1.mem.getD pn' 0
              = k.mem.getD (pnOf pAS va) 0
          ∧ pn' ≠ pnOf pAS va)
    ∧ (∀ va ∈ vas, qualShare k pAS ppid va →
        virtual_memory_lookup a' va = virtual_memory_lookup pAS va
        ∧ (fork_loop pAS ppid newowner vas (some a0) k).2.1.pageinfo.getD
            (pnOf pAS va) defFrame
          = { k.pageinfo.getD (pnOf pAS va) defFrame with
              refcount := (k.pageinfo.getD (pnOf pAS va) defFrame).refcount + 1 })
    ∧ (∀ va ∈ vas, ¬ qualCopy k pAS ppid va → ¬ qualShare k pAS ppid va →
        virtual_memory_lookup a' va = virtual_memory_lookup a0 va)
    ∧ (∀ pn, (k.pageinfo.getD pn defFrame).refcount ≠ 0 →
        (k.pageinfo.getD pn defFrame).owner ≠ ppid →
        (fork_loop pAS ppid newowner vas (some a0) k).2.1.pageinfo.getD pn defFrame
            = k.pageinfo.getD pn defFrame
        ∧ (fork_loop pAS ppid newowner vas (some a0) k).2.1.mem.getD pn 0
            = k.mem.getD pn 0)
    ∧ (∀ pn, (∀ va ∈ vas, permOf pAS va ≠ 0 → pnOf pAS va ≠ pn) →
        (k.pageinfo.getD pn defFrame).refcount ≠ 0 →
        (fork_loop pAS ppid newowner vas (some a0) k).2.1.pageinfo.getD pn defFrame
            = k.pageinfo.getD pn defFrame
        ∧ (fork_loop pAS ppid newowner vas (some a0) k).2.1.mem.getD pn 0
            = k.mem.getD pn 0)
    ∧ (∀ va', (∀ va ∈ vas, va / PAGESIZE ≠ va' / PAGESIZE) →
        virtual_memory_lookup a' va' = virtual_memory_lookup a0 va') := by
  induction vas generalizing a0 k with
  | nil =>
    exact ⟨a0, rfl, rfl, by simp, by simp, by simp,
      fun pn _ _ => ⟨rfl, rfl⟩, fun pn _ _ => ⟨rfl, rfl⟩, fun va' _ => rfl⟩
  | cons vah rest ih =>
    have hnodup' := hnodup.of_cons
    have hmemvah : vah ∉ rest := (List.nodup_cons.mp hnodup).1
    have hinj' := lookup_injective_of_cons hinj
    have halignedh : vah % PAGESIZE = 0 := haligned vah (by simp)
    by_cases hW : qualCopy k pAS ppid vah
    · -- private-copy head
      have hpermh : permOf pAS vah ≠ 0 := and_ne_zero hW.1
      obtain ⟨hlook, hP⟩ := @lookup_present pAS vah hpermh
      have hcq : (vah :: rest).countP (fun va => decide (qualCopy k pAS ppid va))
          = rest.countP (fun va => decide (qualCopy k pAS ppid va)) + 1 :=
        List.countP_cons_of_pos _ _ (by simpa using hW)
      have hfree0 : 0 < freeCount k.pageinfo := by
        rw [hcq] at hfree
        omega
      have hlt : find_free k.pageinfo < k.pageinfo.length := (freeCount_pos _).mp hfree0
      have hsucc := page_alloc_lite_success k newowner hlt
      -- frame facts about the parent's frame and the fresh frame
      have hownh : (k.pageinfo.getD (pnOf pAS vah) defFrame).owner = ppid := hW.2
      have hrangeh : pnOf pAS vah < k.pageinfo.length := by
        by_contra hge
        push_neg at hge
        rw [getD_of_length_le _ _ _ hge] at hownh
        exact hppid (by simpa [defFrame] using hownh.symm)
      have hrch : (k.pageinfo.getD (pnOf pAS vah) defFrame).refcount ≠ 0 := by
        intro hc
        have hq1 := (hinv _ (getD_mem_of_lt _ _ _ hrangeh)).mp hc
        rw [hownh] at hq1
        exact hppid (by simpa [PO_FREE] using hq1)
      have hfrfree : (k.pageinfo.getD (find_free k.pageinfo) defFrame).refcount = 0 :=
        find_free_spec _ hlt
      have hpn0ne : find_free k.pageinfo ≠ pnOf pAS vah := by
        intro hc
        rw [hc] at hfrfree
        exact hrch hfrfree
      -- the state after the head iteration
      set kW : KernelState :=
        { pageinfo := k.pageinfo.set (find_free k.pageinfo) ⟨i8 newowner, 1⟩,
          mem := k.mem.set (find_free k.pageinfo) (k.mem.getD (pnOf pAS vah) 0) }
        with hkW
      have hdivpa : find_free k.pageinfo * PAGESIZE / PAGESIZE = find_free k.pageinfo := by
        show find_free k.pageinfo * 4096 / 4096 = _
        omega
      have hdivsrc : (virtual_memory_lookup pAS vah).pa / PAGESIZE = pnOf pAS vah := by
        rw [hlook]
        show (pnOf pAS vah * 4096 + vah % 4096) / 4096 = pnOf pAS vah
        have : vah % 4096 = 0 := halignedh
        omega
      have hstep : fork_loop pAS ppid newowner (vah :: rest) (some a0) k
          = ((fork_loop pAS ppid newowner rest
                (some (virtual_memory_map a0 vah (find_free k.pageinfo * PAGESIZE)
                  PAGESIZE (permOf pAS vah))) kW).1,
             (fork_loop pAS ppid newowner rest
                (some (virtual_memory_map a0 vah (find_free k.pageinfo * PAGESIZE)
                  PAGESIZE (permOf pAS vah))) kW).2.1,
             (fork_loop pAS ppid newowner rest
                (some (virtual_memory_map a0 vah (find_free k.pageinfo * PAGESIZE)
                  PAGESIZE (permOf pAS vah))) kW).2.2 || false) := by
        simp only [fork_loop, if_pos (show (virtual_memory_lookup pAS vah).perm &&& PTE_W ≠ 0
            ∧ (k.pageinfo.getD (virtual_memory_lookup pAS vah).pn.toNat defFrame).owner
              = ppid from hW), hsucc]
        simp only [hkW, hdivpa, hdivsrc, Option.map_some', Option.isNone_some, permOf]
      -- facts about kW
      have hkWpi : kW.pageinfo = k.pageinfo.set (find_free k.pageinfo) ⟨i8 newowner, 1⟩ := rfl
      have hkWmem : kW.mem = k.mem.set (find_free k.pageinfo) (k.mem.getD (pnOf pAS vah) 0) := rfl
      have hgetW : ∀ pn, pn ≠ find_free k.pageinfo →
          kW.pageinfo.getD pn defFrame = k.pageinfo.getD pn defFrame := by
        intro pn hpn
        rw [hkWpi]
        exact getD_set_ne _ _ _ _ _ (fun hc => hpn hc.symm)
      have hgetWmem : ∀ pn, pn ≠ find_free k.pageinfo →
          kW.mem.getD pn 0 = k.mem.getD pn 0 := by
        intro pn hpn
        rw [hkWmem]
        exact getD_set_ne _ _ _ _ _ (fun hc => hpn hc.symm)
      have hgetW0 : kW.pageinfo.getD (find_free k.pageinfo) defFrame = ⟨i8 newowner, 1⟩ := by
        rw [hkWpi]
        exact getD_set_self _ _ _ _ hlt
      have hgetW0mem : kW.mem.getD (find_free k.pageinfo) 0
          = k.mem.getD (pnOf pAS vah) 0 := by
        rw [hkWmem]
        exact getD_set_self _ _ _ _ (by omega)
      -- qualification is stable across the head step
      have hqstable : ∀ va, qualCopy kW pAS ppid va ↔ qualCopy k pAS ppid va := by
        intro va
        unfold qualCopy
        by_cases he : pnOf pAS va = find_free k.pageinfo
        · rw [he, hgetW0]
          have hfo : (k.pageinfo.getD (find_free k.pageinfo) defFrame).owner = PO_FREE :=
            (hinv _ (getD_mem_of_lt _ _ _ hlt)).mp hfrfree
          rw [hfo]
          simp only [defFrame]
          constructor
          · rintro ⟨h1, h2⟩
            exact absurd h2 hnewo
          · rintro ⟨h1, h2⟩
            exact absurd h2 (by simpa [PO_FREE] using (Ne.symm hppid))
        · rw [hgetW _ he]
      have hqstable2 : ∀ va, qualShare kW pAS ppid va ↔ qualShare k pAS ppid va := by
        intro va
        unfold qualShare
        rw [hqstable va]
        by_cases he : pnOf pAS va = find_free k.pageinfo
        · rw [he, hgetW0]
          have hfo : (k.pageinfo.getD (find_free k.pageinfo) defFrame).owner = PO_FREE :=
            (hinv _ (getD_mem_of_lt _ _ _ hlt)).mp hfrfree
          rw [hfo]
          simp only [defFrame]
          constructor
          · rintro ⟨h1, h2, h3⟩
            exact absurd h3 hnewo
          · rintro ⟨h1, h2, h3⟩
            exact absurd h3 (by simpa [PO_FREE] using (Ne.symm hppid))
        · rw [hgetW _ he]
      -- transported hypotheses for the tail
      have hinvW : pageinfo_inv kW.pageinfo :=
        pageinfo_inv_set _ hinv (fresh_frame_inv hnew0)
      have hokW : ∀ f ∈ kW.pageinfo, 0 ≤ f.refcount ∧ f.refcount ≤ 127 := by
        intro f hf
        rcases List.mem_or_eq_of_mem_set hf with h1 | rfl
        · exact hok f h1
        · norm_num
      have hboundW : ∀ va ∈ rest, permOf pAS va ≠ 0 →
          (kW.pageinfo.getD (pnOf pAS va) defFrame).refcount ≤ 126 := by
        intro va hva hp
        by_cases he : pnOf pAS va = find_free k.pageinfo
        · rw [he, hgetW0]
          norm_num
        · rw [hgetW _ he]
          exact hbound va (by simp [hva]) hp
      have hmemlenW : kW.mem.length = kW.pageinfo.length := by
        rw [hkWpi, hkWmem]
        simp [hmemlen]
      have hfreeW : rest.countP (fun va => decide (qualCopy kW pAS ppid va))
          ≤ freeCount kW.pageinfo := by
        have hcnt : rest.countP (fun va => decide (qualCopy kW pAS ppid va))
            = rest.countP (fun va => decide (qualCopy k pAS ppid va)) := by
          apply List.countP_congr
          intro va _
          simp [hqstable va]
        have hfc : freeCount kW.pageinfo + 1 = freeCount k.pageinfo := by
          rw [hkWpi]
          exact freeCount_set_zero _ _ _ hlt hfrfree (by norm_num)
        rw [hcnt]
        rw [hcq] at hfree
        omega
      obtain ⟨a', ha', hbad, hWc, hSc, hNc, hstab1, hstab2, hpres⟩ :=
        ih _ _ hinvW hokW hboundW (fun va hva => haligned va (by simp [hva]))
          hnodup' hinj' hmemlenW hfreeW
      -- the head's new frame is untouched by the tail
      have hfreshkeep := hstab1 (find_free k.pageinfo)
        (by rw [hgetW0]; norm_num)
        (by rw [hgetW0]; exact fun hc => absurd hc hnewo)
      refine ⟨a', by rw [hstep]; exact ha', by rw [hstep, hbad]; rfl, ?_, ?_, ?_, ?_, ?_, ?_⟩
      · -- copy conclusions
        intro va hva hq
        rcases List.mem_cons.mp hva with rfl | hva'
        · -- the head itself
          refine ⟨find_free k.pageinfo, ?_, hfrfree, ?_, ?_, hpn0ne⟩
          · rw [hpres va (fun va2 hva2 => aligned_div_ne (haligned va2 (by simp [hva2]))
              halignedh (fun hc => hmemvah (hc ▸ hva2)))]
            rw [virtual_memory_map_one]
            rw [lookup_map_page_eq _ _ _ _ _ rfl hP]
            rw [hdivpa]
          · rw [hstep]
            exact hfreshkeep.1.trans hgetW0
          · rw [hstep]
            rw [hfreshkeep.2, hgetW0mem]
        · -- a tail page
          have hq' : qualCopy kW pAS ppid va := (hqstable va).mpr hq
          obtain ⟨pn', hl', hz', hset', hmem', hne'⟩ := hWc va hva' hq'
          have hownva : (k.pageinfo.getD (pnOf pAS va) defFrame).owner = ppid := hq.2
          have hrangeva : pnOf pAS va < k.pageinfo.length := by
            by_contra hge
            push_neg at hge
            rw [getD_of_length_le _ _ _ hge] at hownva
            exact hppid (by simpa [defFrame] using hownva.symm)
          have hrcva : (k.pageinfo.getD (pnOf pAS va) defFrame).refcount ≠ 0 := by
            intro hc
            have hq1 := (hinv _ (getD_mem_of_lt _ _ _ hrangeva)).mp hc
            rw [hownva] at hq1
            exact hppid (by simpa [PO_FREE] using hq1)
          have hpnne : pn' ≠ find_free k.pageinfo := by
            intro hc
            rw [hc, hgetW0] at hz'
            norm_num at hz'
          have hpnva : pnOf pAS va ≠ find_free k.pageinfo := by
            intro hc
            rw [hc] at hrcva
            exact hrcva hfrfree
          refine ⟨pn', hl', by rw [← hgetW _ hpnne]; exact hz', ?_, ?_, hne'⟩
          · rw [hstep]
            exact hset'
          · rw [hstep, hmem', hgetWmem _ hpnva]
      · -- share conclusions
        intro va hva hq
        rcases List.mem_cons.mp hva with rfl | hva'
        · exact absurd hW hq.1
        · have hq' : qualShare kW pAS ppid va := (hqstable2 va).mpr hq
          have hownva : (k.pageinfo.getD (pnOf pAS va) defFrame).owner = ppid := hq.2.2
          have hrangeva : pnOf pAS va < k.pageinfo.length := by
            by_contra hge
            push_neg at hge
            rw [getD_of_length_le _ _ _ hge] at hownva
            exact hppid (by simpa [defFrame] using hownva.symm)
          have hrcva : (k.pageinfo.getD (pnOf pAS va) defFrame).refcount ≠ 0 := by
            intro hc
            have hq1 := (hinv _ (getD_mem_of_lt _ _ _ hrangeva)).mp hc
            rw [hownva] at hq1
            exact hppid (by simpa [PO_FREE] using hq1)
          have hpnva : pnOf pAS va ≠ find_free k.pageinfo := by
            intro hc
            rw [hc] at hrcva
            exact hrcva hfrfree
          obtain ⟨hl', hset'⟩ := hSc va hva' hq'
          refine ⟨hl', ?_⟩
          rw [hstep, hset', hgetW _ hpnva]
      · -- untouched pages
        intro va hva hnq hns
        rcases List.mem_cons.mp hva with rfl | hva'
        · exact absurd hW hnq
        · have h1 := hNc va hva' (fun hc => hnq ((hqstable va).mp hc))
            (fun hc => hns ((hqstable2 va).mp hc))
          rw [h1]
          rw [virtual_memory_map_one]
          exact lookup_map_page_ne _ _ _ _ _ (aligned_div_ne (haligned va (by simp [hva']))
            halignedh (fun hc => hmemvah (hc ▸ hva')))
      · -- stability for owned-by-others frames
        intro pn hrc how
        have hpn0 : pn ≠ find_free k.pageinfo := by
          intro hc
          rw [hc] at hrc
          exact hrc hfrfree
        have h1 := hstab1 pn (by rw [hgetW _ hpn0]; exact hrc) (by rw [hgetW _ hpn0]; exact how)
        rw [hstep]
        rw [h1.1, h1.2, hgetW _ hpn0, hgetWmem _ hpn0]
        exact ⟨rfl, rfl⟩
      · -- stability for unmapped referenced frames
        intro pn hnm hrc
        have hpn0 : pn ≠ find_free k.pageinfo := by
          intro hc
          rw [hc] at hrc
          exact hrc hfrfree
        have h1 := hstab2 pn (fun va hva hp => hnm va (by simp [hva]) hp)
          (by rw [hgetW _ hpn0]; exact hrc)
        rw [hstep]
        rw [h1.1, h1.2, hgetW _ hpn0, hgetWmem _ hpn0]
        exact ⟨rfl, rfl⟩
      · -- lookup preservation
        intro va' hva'
        rw [hpres va' (fun va2 hva2 => hva' va2 (by simp [hva2]))]
        rw [virtual_memory_map_one]
        exact lookup_map_page_ne _ _ _ _ _ (Ne.symm (hva' vah (by simp)))
    · by_cases hS : qualShare k pAS ppid vah
      · -- share head
        have hpermh : permOf pAS vah ≠ 0 := hS.2.1
        obtain ⟨hlook, hP⟩ := @lookup_present pAS vah hpermh
        have hownh : (k.pageinfo.getD (pnOf pAS vah) defFrame).owner = ppid := hS.2.2
        have hrangeh : pnOf pAS vah < k.pageinfo.length := by
          by_contra hge
          push_neg at hge
          rw [getD_of_length_le _ _ _ hge] at hownh
          exact hppid (by simpa [defFrame] using hownh.symm)
        have hrch : (k.pageinfo.getD (pnOf pAS vah) defFrame).refcount ≠ 0 := by
          intro hc
          have hq1 := (hinv _ (getD_mem_of_lt _ _ _ hrangeh)).mp hc
          rw [hownh] at hq1
          exact hppid (by simpa [PO_FREE] using hq1)
        have h0h := (hok _ (getD_mem_of_lt k.pageinfo (pnOf pAS vah) defFrame hrangeh)).1
        have h126h := hbound vah (by simp) hpermh
        have hdivsrc : (virtual_memory_lookup pAS vah).pa / PAGESIZE = pnOf pAS vah := by
          rw [hlook]
          show (pnOf pAS vah * 4096 + vah % 4096) / 4096 = pnOf pAS vah
          have hz : vah % 4096 = 0 := halignedh
          omega
        have hbeq := bumpRefcount_eq k (pnOf pAS vah) h0h (by omega)
        set kS : KernelState := bumpRefcount k (pnOf pAS vah) with hkS
        have hgetS0 : kS.pageinfo.getD (pnOf pAS vah) defFrame
            = { k.pageinfo.getD (pnOf pAS vah) defFrame with
                refcount := (k.pageinfo.getD (pnOf pAS vah) defFrame).refcount + 1 } := by
          rw [hbeq]
          show ((k.pageinfo.set (pnOf pAS vah) _).getD (pnOf pAS vah) defFrame) = _
          rw [getD_set_self _ _ _ _ hrangeh]
        have hgetS : ∀ pn, pn ≠ pnOf pAS vah →
            kS.pageinfo.getD pn defFrame = k.pageinfo.getD pn defFrame := by
          intro pn hpn
          rw [hbeq]
          exact getD_set_ne _ _ _ _ _ (fun hc => hpn hc.symm)
        have hmemS : kS.mem = k.mem := by rw [hbeq]
        have hqstable : ∀ va, qualCopy kS pAS ppid va ↔ qualCopy k pAS ppid va := by
          intro va
          unfold qualCopy
          by_cases he : pnOf pAS va = pnOf pAS vah
          · rw [he, hgetS0]
          · rw [hgetS _ he]
        have hqstable2 : ∀ va, qualShare kS pAS ppid va ↔ qualShare k pAS ppid va := by
          intro va
          unfold qualShare
          rw [hqstable va]
          by_cases he : pnOf pAS va = pnOf pAS vah
          · rw [he, hgetS0]
          · rw [hgetS _ he]
        have hinvS : pageinfo_inv kS.pageinfo := by
          rw [hkS]
          exact bumpRefcount_inv k _ hinv (by rw [hownh]; exact hppid) h0h (by omega)
        have hokS : ∀ f ∈ kS.pageinfo, 0 ≤ f.refcount ∧ f.refcount ≤ 127 := by
          rw [hbeq]
          intro f hf
          rcases List.mem_or_eq_of_mem_set hf with h1 | rfl
          · exact hok f h1
          · refine ⟨by simp only []; omega, by simp only []; omega⟩
        have hboundS : ∀ va ∈ rest, permOf pAS va ≠ 0 →
            (kS.pageinfo.getD (pnOf pAS va) defFrame).refcount ≤ 126 := by
          intro va hva hp
          have hne : pnOf pAS va ≠ pnOf pAS vah := by
            intro hc
            exact (hinj vah (by simp) va (by simp [hva])
              (fun h2 => hmemvah (h2 ▸ hva)) hpermh hp) hc.symm
          rw [hgetS _ hne]
          exact hbound va (by simp [hva]) hp
        have hmemlenS : kS.mem.length = kS.pageinfo.length := by
          rw [hmemS, hbeq]
          simp [hmemlen]
        have hfreeS : rest.countP (fun va => decide (qualCopy kS pAS ppid va))
            ≤ freeCount kS.pageinfo := by
          have hcnt : rest.countP (fun va => decide (qualCopy kS pAS ppid va))
              = rest.countP (fun va => decide (qualCopy k pAS ppid va)) := by
            apply List.countP_congr
            intro va _
            simp [hqstable va]
          have hfc : freeCount kS.pageinfo = freeCount k.pageinfo := by
            rw [hbeq]
            refine freeCount_set_nonzero _ _ _ hrch ?_
            simp only []
            omega
          have hcq : (vah :: rest).countP (fun va => decide (qualCopy k pAS ppid va))
              = rest.countP (fun va => decide (qualCopy k pAS ppid va)) :=
            List.countP_cons_of_neg _ _ (by simpa using hW)
          rw [hcnt, hfc]
          rw [hcq] at hfree
          omega
        have hstep : fork_loop pAS ppid newowner (vah :: rest) (some a0) k
            = ((fork_loop pAS ppid newowner rest
                  (some (virtual_memory_map a0 vah (virtual_memory_lookup pAS vah).pa
                    PAGESIZE (permOf pAS vah))) kS).1,
               (fork_loop pAS ppid newowner rest
                  (some (virtual_memory_map a0 vah (virtual_memory_lookup pAS vah).pa
                    PAGESIZE (permOf pAS vah))) kS).2.1,
               (fork_loop pAS ppid newowner rest
                  (some (virtual_memory_map a0 vah (virtual_memory_lookup pAS vah).pa
                    PAGESIZE (permOf pAS vah))) kS).2.2 || false) := by
          have hnc1 : ¬ ((virtual_memory_lookup pAS vah).perm &&& PTE_W ≠ 0
              ∧ (k.pageinfo.getD (virtual_memory_lookup pAS vah).pn.toNat defFrame).owner
                = ppid) := hW
          simp only [fork_loop, if_neg hnc1,
            if_pos (show (virtual_memory_lookup pAS vah).perm ≠ 0
              ∧ (k.pageinfo.getD (virtual_memory_lookup pAS vah).pn.toNat defFrame).owner
                = ppid from ⟨hS.2.1, hS.2.2⟩), permOf]
          simp only [hkS, pnOf, Option.map_some', Option.isNone_some]
        obtain ⟨a', ha', hbad, hWc, hSc, hNc, hstab1, hstab2, hpres⟩ :=
          ih _ _ hinvS hokS hboundS (fun va hva => haligned va (by simp [hva]))
            hnodup' hinj' hmemlenS hfreeS
        have hkeep := hstab2 (pnOf pAS vah)
          (fun va hva hp => by
            intro hc
            exact (hinj vah (by simp) va (by simp [hva])
              (fun h2 => hmemvah (h2 ▸ hva)) hpermh hp) hc.symm)
          (by rw [hgetS0]; simp only []; omega)
        refine ⟨a', by rw [hstep]; exact ha', by rw [hstep, hbad]; rfl, ?_, ?_, ?_, ?_, ?_, ?_⟩
        · intro va hva hq
          rcases List.mem_cons.mp hva with rfl | hva'
          · exact absurd hq hW
          · have hq' : qualCopy kS pAS ppid va := (hqstable va).mpr hq
            obtain ⟨pn', hl', hz', hset', hmem', hne'⟩ := hWc va hva' hq'
            have hpnne : pn' ≠ pnOf pAS vah := by
              intro hc
              rw [hc, hgetS0] at hz'
              simp only [] at hz'
              omega
            refine ⟨pn', hl', by rw [← hgetS _ hpnne]; exact hz', ?_, ?_, hne'⟩
            · rw [hstep]
              exact hset'
            · rw [hstep, hmem', hmemS]
        · intro va hva hq
          rcases List.mem_cons.mp hva with rfl | hva'
          · -- the share head itself
            refine ⟨?_, ?_⟩
            · rw [hpres va (fun va2 hva2 => aligned_div_ne (haligned va2 (by simp [hva2]))
                halignedh (fun hc => hmemvah (hc ▸ hva2)))]
              rw [virtual_memory_map_one]
              rw [lookup_map_page_eq _ _ _ _ _ rfl hP]
              rw [hdivsrc, hlook]
            · rw [hstep, hkeep.1, hgetS0]
          · have hq' : qualShare kS pAS ppid va := (hqstable2 va).mpr hq
            have hpnva : pnOf pAS va ≠ pnOf pAS vah := by
              intro hc
              exact (hinj vah (by simp) va (by simp [hva'])
                (fun h2 => hmemvah (h2 ▸ hva')) hpermh hq.2.1) hc.symm
            obtain ⟨hl', hset'⟩ := hSc va hva' hq'
            refine ⟨hl', ?_⟩
            rw [hstep, hset', hgetS _ hpnva]
        · intro va hva hnq hns
          rcases List.mem_cons.mp hva with rfl | hva'
          · exact absurd hS hns
          · have h1 := hNc va hva' (fun hc => hnq ((hqstable va).mp hc))
              (fun hc => hns ((hqstable2 va).mp hc))
            rw [h1]
            rw [virtual_memory_map_one]
            exact lookup_map_page_ne _ _ _ _ _ (aligned_div_ne (haligned va (by simp [hva']))
              halignedh (fun hc => hmemvah (hc ▸ hva')))
        · intro pn hrc how
          have hpn0 : pn ≠ pnOf pAS vah := by
            intro hc
            rw [hc] at how
            exact how hownh
          have h1 := hstab1 pn (by rw [hgetS _ hpn0]; exact hrc) (by rw [hgetS _ hpn0]; exact how)
          rw [hstep]
          rw [h1.1, h1.2, hgetS _ hpn0, hmemS]
          exact ⟨rfl, rfl⟩
        · intro pn hnm hrc
          have hpn0 : pn ≠ pnOf pAS vah := by
            intro hc
            exact hnm vah (by simp) hpermh hc.symm
          have h1 := hstab2 pn (fun va hva hp => hnm va (by simp [hva]) hp)
            (by rw [hgetS _ hpn0]; exact hrc)
          rw [hstep]
          rw [h1.1, h1.2, hgetS _ hpn0, hmemS]
          exact ⟨rfl, rfl⟩
        · intro va' hva'
          rw [hpres va' (fun va2 hva2 => hva' va2 (by simp [hva2]))]
          rw [virtual_memory_map_one]
          exact lookup_map_page_ne _ _ _ _ _ (Ne.symm (hva' vah (by simp)))
      · -- neither branch: untouched head
        have hstep : fork_loop pAS ppid newowner (vah :: rest) (some a0) k
            = fork_loop pAS ppid newowner rest (some a0) k := by
          have hnc1 : ¬ ((virtual_memory_lookup pAS vah).perm &&& PTE_W ≠ 0
              ∧ (k.pageinfo.getD (virtual_memory_lookup pAS vah).pn.toNat defFrame).owner
                = ppid) := hW
          have hnc2 : ¬ ((virtual_memory_lookup pAS vah).perm ≠ 0
              ∧ (k.pageinfo.getD (virtual_memory_lookup pAS vah).pn.toNat defFrame).owner
                = ppid) := by
            intro hc
            exact hS ⟨hW, hc.1, hc.2⟩
          simp only [fork_loop, if_neg hnc1, if_neg hnc2]
        obtain ⟨a', ha', hbad, hWc, hSc, hNc, hstab1, hstab2, hpres⟩ :=
          ih _ _ hinv hok (fun va hva hp => hbound va (by simp [hva]) hp)
            (fun va hva => haligned va (by simp [hva])) hnodup' hinj' hmemlen
            (by
              have hcq : (vah :: rest).countP (fun va => decide (qualCopy k pAS ppid va))
                  = rest.countP (fun va => decide (qualCopy k pAS ppid va)) :=
                List.countP_cons_of_neg _ _ (by simpa using hW)
              rw [hcq] at hfree
              exact hfree)
        refine ⟨a', by rw [hstep]; exact ha', by rw [hstep]; exact hbad, ?_, ?_, ?_, ?_, ?_, ?_⟩
        · intro va hva hq
          rcases List.mem_cons.mp hva with rfl | hva'
          · exact absurd hq hW
          · obtain ⟨pn', hl', hz', hset', hmem', hne'⟩ := hWc va hva' hq
            exact ⟨pn', hl', hz', by rw [hstep]; exact hset', by rw [hstep]; exact hmem', hne'⟩
        · intro va hva hq
          rcases List.mem_cons.mp hva with rfl | hva'
          · exact absurd hq hS
          · obtain ⟨hl', hset'⟩ := hSc va hva'  hq
            exact ⟨hl', by rw [hstep]; exact hset'⟩
        · intro va hva hnq hns
          rcases List.mem_cons.mp hva with rfl | hva'
          · exact hpres va (fun va2 hva2 => aligned_div_ne (haligned va2 (by simp [hva2]))
              halignedh (fun hc => hmemvah (hc ▸ hva2)))
          · exact hNc va hva' hnq hns
        · intro pn hrc how
          have h1 := hstab1 pn hrc how
          exact ⟨by rw [hstep]; exact h1.1, by rw [hstep]; exact h1.2⟩
        · intro pn hnm hrc
          have h1 := hstab2 pn (fun va hva hp => hnm va (by simp [hva]) hp) hrc
          exact ⟨by rw [hstep]; exact h1.1, by rw [hstep]; exact h1.2⟩
        · intro va' hva'
          exact hpres va' (fun va2 hva2 => hva' va2 (by simp [hva2]))

/-- **C2 (amended).** For the copy loop of a successful fork started from a
verbatim clone `a0` of the parent's table (same lookups), under the frame
invariant and refcount headroom: (copy half) every parent-owned writable
page is remapped in the child at the same virtual address with the same
permissions onto a freshly allocated frame, distinct from the parent's
frame, holding a copy of the parent page's contents; (share half) every
parent-owned present non-writable page is mapped in the child onto the
identical physical frame, whose refcount grows by exactly one.  The final
clause of the claim is corrected: a present page whose frame is NOT owned
by the parent IS propagated to the child — `copy_pagetable` copies the
parent's table verbatim and the loop leaves such pages untouched, so the
child is mapped onto the very same physical frame as the parent. -/
theorem claim_C2_fork_copy_share (pAS a0 : AddrSpace) (ppid newowner : Int)
    (vas : List Nat) (k : KernelState)
    (ha0 : ∀ va, virtual_memory_lookup a0 va = virtual_memory_lookup pAS va)
    (hppid : ppid ≠ 0) (hnewo : i8 newowner ≠ ppid) (hnew0 : i8 newowner ≠ 0)
    (hinv : pageinfo_inv k.pageinfo)
    (hok : ∀ f ∈ k.pageinfo, 0 ≤ f.refcount ∧ f.refcount ≤ 127)
    (hbound : ∀ va ∈ vas, permOf pAS va ≠ 0 →
        (k.pageinfo.getD (pnOf pAS va) defFrame).refcount ≤ 126)
    (haligned : ∀ va ∈ vas, va % PAGESIZE = 0)
    (hnodup : vas.Nodup)
    (hinj : lookup_injective pAS vas)
    (hmemlen : k.mem.length = k.pageinfo.length)
    (hfree : vas.countP (fun va => decide (qualCopy k pAS ppid va))
        ≤ freeCount k.pageinfo) :
    ∃ a', (fork_loop pAS ppid newowner vas (some a0) k).1 = some a'
    ∧ (∀ va ∈ vas, qualCopy k pAS ppid va →
        ∃ pn', pn' ≠ pnOf pAS va
          ∧ virtual_memory_lookup a' va
              = ⟨((pn' : Nat) : Int), pn' * PAGESIZE + va % PAGESIZE, permOf pAS va⟩
          ∧ (fork_loop pAS ppid newowner vas (some a0) k).2.1.pageinfo.getD pn' defFrame
              = ⟨i8 newowner, 1⟩
          ∧ (fork_loop pAS ppid newowner vas (some a0) k).2.1.mem.getD pn' 0
              = k.mem.getD (pnOf pAS va) 0)
    ∧ (∀ va ∈ vas, qualShare k pAS ppid va →
        virtual_memory_lookup a' va = virtual_memory_lookup pAS va
        ∧ ((fork_loop pAS ppid newowner vas (some a0) k).2.1.pageinfo.getD
              (pnOf pAS va) defFrame).refcount
            = (k.pageinfo.getD (pnOf pAS va) defFrame).refcount + 1)
    ∧ (∀ va ∈ vas, permOf pAS va ≠ 0 →
        (k.pageinfo.getD (pnOf pAS va) defFrame).owner ≠ ppid →
        virtual_memory_lookup a' va = virtual_memory_lookup pAS va) := by
  obtain ⟨a', h1, _, hWc, hSc, hNc, _, _, _⟩ :=
    fork_loop_spec pAS ppid newowner vas a0 k hppid hnewo hnew0 hinv hok hbound
      haligned hnodup hinj hmemlen hfree
  refine ⟨a', h1, ?_, ?_, ?_⟩
  · intro va hva hq
    obtain ⟨pn', hl, _, hfr, hmem, hne⟩ := hWc va hva hq
    exact ⟨pn', hne, hl, hfr, hmem⟩
  · intro va hva hq
    obtain ⟨hl, hfr⟩ := hSc va hva hq
    exact ⟨hl, by rw [hfr]⟩
  · intro va hva hperm hown
    have hnq : ¬ qualCopy k pAS ppid va := fun hc => hown hc.2
    have hns : ¬ qualShare k pAS ppid va := fun hc => hown hc.2.2
    rw [hNc va hva hnq hns, ha0 va]

/-- **C2 counterexample.** A successful fork (parent pid 1 at slot 1, free
slot 2, user page `0x100000` mapped to frame 3 which is owned by pid 3,
not by the parent): the child receives the mapping onto frame 3 anyway —
a page not owned by the parent is propagated to the child, refuting the
claim's final clause. -/
theorem claim_C2_counterexample :
    ((fork_handler [1048576] forkDemoProcs 1 forkDemoK3).1.getD 2 defProc).pagetable.map
        (fun a => (virtual_memory_lookup a 1048576).pn) = some 3
    ∧ (forkDemoK3.pageinfo.getD 3 defFrame).owner = 3
    ∧ (forkDemoProcs.getD 1 defProc).pid = 1 := by
  decide

/-- **C2 witness.** The amended theorem instantiated on a concrete fork in
which the parent (pid 1) owns the writable page at `0x100000`: the child's
table maps that page onto a fresh frame distinct from the parent's. -/
theorem claim_C2_witness :
    ∃ a', (fork_loop forkDemoAS 1 2 [1048576] (some forkDemoChild) forkDemoK1).1 = some a'
    ∧ ∃ pn', pn' ≠ pnOf forkDemoAS 1048576
      ∧ virtual_memory_lookup a' 1048576
          = ⟨((pn' : Nat) : Int), pn' * PAGESIZE + 1048576 % PAGESIZE,
             permOf forkDemoAS 1048576⟩ := by
  obtain ⟨a', h1, hWc, _, _⟩ :=
    claim_C2_fork_copy_share forkDemoAS forkDemoChild 1 2 [1048576] forkDemoK1
      (fun va => lookup_congr_entries rfl va)
      (by decide) (by decide) (by decide)
      (by unfold pageinfo_inv; decide)
      (by decide) (by decide) (by decide) (by decide)
      (by unfold lookup_injective; decide)
      (by decide) (by decide)
  obtain ⟨pn', hne, hl, _, _⟩ := hWc 1048576 (by simp) (by decide)
  exact ⟨a', h1, pn', hne, hl⟩

/-- **C10 (amended).** The allocator-exhaustion branch inside fork's copy
loop (whose `memcpy` target would be the `NULL` allocation result, recorded
in the loop's `Bool` component) is NOT unreachable in general — the
counterexample exhibits a fork that reaches the loop and takes it.  It is
unreachable under the amended precondition that the number of free frames
is at least the number of pages qualifying for private copying: then every
fresh-frame allocation in the loop succeeds and no null allocation result
is ever dereferenced. -/
theorem claim_C10_no_null_deref (pAS a0 : AddrSpace) (ppid newowner : Int)
    (vas : List Nat) (k : KernelState)
    (hppid : ppid ≠ 0) (hnewo : i8 newowner ≠ ppid) (hnew0 : i8 newowner ≠ 0)
    (hinv : pageinfo_inv k.pageinfo)
    (hok : ∀ f ∈ k.pageinfo, 0 ≤ f.refcount ∧ f.refcount ≤ 127)
    (hbound : ∀ va ∈ vas, permOf pAS va ≠ 0 →
        (k.pageinfo.getD (pnOf pAS va) defFrame).refcount ≤ 126)
    (haligned : ∀ va ∈ vas, va % PAGESIZE = 0)
    (hnodup : vas.Nodup)
    (hinj : lookup_injective pAS vas)
    (hmemlen : k.mem.length = k.pageinfo.length)
    (hfree : vas.countP (fun va => decide (qualCopy k pAS ppid va))
        ≤ freeCount k.pageinfo) :
    (fork_loop pAS ppid newowner vas (some a0) k).2.2 = false := by
  obtain ⟨a', _, hbad, _, _, _, _, _, _⟩ :=
    fork_loop_spec pAS ppid newowner vas a0 k hppid hnewo hnew0 hinv hok hbound
      haligned hnodup hinj hmemlen hfree
  exact hbad

/-- **C10 counterexample.** A fork that reaches the copy loop with a
qualifying (parent-owned, writable) page but no free frame left after the
two table allocations: the allocation in the loop fails and the `memcpy`
dereferences the `NULL` result (`Bool` component `true`), while the child
slot was already claimed — the exhaustion branch is reachable. -/
theorem claim_C10_counterexample :
    (fork_handler [1048576] forkDemoProcs 1 forkDemoK1).2.2 = true
    ∧ ((fork_handler [1048576] forkDemoProcs 1 forkDemoK1).1.getD 2 defProc).state
        = PState.runnable := by
  decide

/-- **C10 witness.** The amended theorem instantiated on a concrete copy
loop with one qualifying page and two free frames: no null dereference. -/
theorem claim_C10_witness :
    (fork_loop forkDemoAS 1 2 [1048576] (some forkDemoChild) forkDemoK1).2.2 = false :=
  claim_C10_no_null_deref forkDemoAS forkDemoChild 1 2 [1048576] forkDemoK1
    (by decide) (by decide) (by decide)
    (by unfold pageinfo_inv; decide)
    (by decide) (by decide) (by decide) (by decide)
    (by unfold lookup_injective; decide)
    (by decide) (by decide)

end Kernel61
